import Mathlib

/-!
Shallow embedding of the smart-glasses guidance pipeline core, translated
from the Python sources:

* `src/modules/tracker/matching.py` — `compute_iou`, `match_detections_to_tracks`
* `src/modules/tracker/tracker.py` — `Track`, `Tracker`
* `src/modules/tracker/module.py` — the per-detection-cycle processing
* `src/modules/navigation/spatial.py` — direction/zone/movement/urgency
* `src/modules/fusion/policy.py` — `FusionPolicy.should_announce`
* `src/core_platform/frame_bus.py`, `result_bus.py` — bus publish/shutdown
* `src/core_platform/control_state.py` — `ControlState.update`

Python floats are embedded as rationals (`ℚ`); the claims under study are
about exact comparison structure, not floating-point rounding.
-/

namespace SmartGlasses

/-- Bounding box `(x, y, w, h)` in normalized coordinates
(`matching.py`, `spatial.py` pass these as 4-tuples). -/
structure BBox where
  x : ℚ
  y : ℚ
  w : ℚ
  h : ℚ
deriving DecidableEq, Repr

/-- `matching.py: compute_iou`.  Intersection-over-union of two
axis-aligned boxes given as `(x, y, w, h)`. -/
def compute_iou (bbox1 bbox2 : BBox) : ℚ :=
  -- Convert to (x1, y1, x2, y2) format
  let box1_x2 := bbox1.x + bbox1.w
  let box1_y2 := bbox1.y + bbox1.h
  let box2_x2 := bbox2.x + bbox2.w
  let box2_y2 := bbox2.y + bbox2.h
  -- Compute intersection
  let inter_x1 := max bbox1.x bbox2.x
  let inter_y1 := max bbox1.y bbox2.y
  let inter_x2 := min box1_x2 box2_x2
  let inter_y2 := min box1_y2 box2_y2
  if inter_x2 ≤ inter_x1 ∨ inter_y2 ≤ inter_y1 then 0
  else
    let inter_area := (inter_x2 - inter_x1) * (inter_y2 - inter_y1)
    -- Compute union
    let union_area := bbox1.w * bbox1.h + bbox2.w * bbox2.h - inter_area
    if union_area = 0 then 0 else inter_area / union_area

/-- If the first box has zero area then one of its sides is flat, so the
intersection test in `compute_iou` fails and the function returns `0`. -/
lemma compute_iou_eq_zero_of_area_left_eq_zero (b1 b2 : BBox)
    (h : b1.w * b1.h = 0) : compute_iou b1 b2 = 0 := by
  unfold compute_iou
  rcases mul_eq_zero.mp h with hw | hh
  · rw [if_pos]
    left
    calc min (b1.x + b1.w) (b2.x + b2.w) ≤ b1.x + b1.w := min_le_left _ _
      _ = b1.x := by rw [hw, add_zero]
      _ ≤ max b1.x b2.x := le_max_left _ _
  · rw [if_pos]
    right
    calc min (b1.y + b1.h) (b2.y + b2.h) ≤ b1.y + b1.h := min_le_left _ _
      _ = b1.y := by rw [hh, add_zero]
      _ ≤ max b1.y b2.y := le_max_left _ _

/-- C8: for bboxes in normalized `(x,y,w,h)` form with `w,h ≥ 0`:
`compute_iou b b = 1` for every box of positive area; `compute_iou` is `0`
for disjoint boxes and for zero-area-union (degenerate) pairs; and
`compute_iou` is symmetric. -/
theorem compute_iou_self_disjoint_degenerate_symm :
    (∀ b : BBox, 0 ≤ b.w → 0 ≤ b.h → 0 < b.w * b.h → compute_iou b b = 1) ∧
    (∀ b1 b2 : BBox,
      (b1.x + b1.w ≤ b2.x ∨ b2.x + b2.w ≤ b1.x ∨
       b1.y + b1.h ≤ b2.y ∨ b2.y + b2.h ≤ b1.y) → compute_iou b1 b2 = 0) ∧
    (∀ b1 b2 : BBox, 0 ≤ b1.w → 0 ≤ b1.h → 0 ≤ b2.w → 0 ≤ b2.h →
      b1.w * b1.h + b2.w * b2.h = 0 → compute_iou b1 b2 = 0) ∧
    (∀ b1 b2 : BBox, compute_iou b1 b2 = compute_iou b2 b1) := by
  refine ⟨?_, ?_, ?_, ?_⟩
  · intro b hw hh harea
    have hw' : 0 < b.w := by
      rcases lt_or_eq_of_le hw with h | h
      · exact h
      · exfalso; rw [← h, zero_mul] at harea; exact lt_irrefl 0 harea
    have hh' : 0 < b.h := by
      rcases lt_or_eq_of_le hh with h | h
      · exact h
      · exfalso; rw [← h, mul_zero] at harea; exact lt_irrefl 0 harea
    simp only [compute_iou]
    rw [min_self, min_self, max_self, max_self]
    rw [if_neg (by push_neg; constructor <;> linarith)]
    have h1 : b.x + b.w - b.x = b.w := by ring
    have h2 : b.y + b.h - b.y = b.h := by ring
    rw [h1, h2]
    rw [if_neg (by intro hc; rw [show b.w * b.h + b.w * b.h - b.w * b.h = b.w * b.h by ring] at hc; linarith)]
    rw [show b.w * b.h + b.w * b.h - b.w * b.h = b.w * b.h by ring]
    exact div_self (by positivity)
  · intro b1 b2 h
    unfold compute_iou
    rw [if_pos]
    rcases h with h | h | h | h
    · left
      calc min (b1.x + b1.w) (b2.x + b2.w) ≤ b1.x + b1.w := min_le_left _ _
        _ ≤ b2.x := h
        _ ≤ max b1.x b2.x := le_max_right _ _
    · left
      calc min (b1.x + b1.w) (b2.x + b2.w) ≤ b2.x + b2.w := min_le_right _ _
        _ ≤ b1.x := h
        _ ≤ max b1.x b2.x := le_max_left _ _
    · right
      calc min (b1.y + b1.h) (b2.y + b2.h) ≤ b1.y + b1.h := min_le_left _ _
        _ ≤ b2.y := h
        _ ≤ max b1.y b2.y := le_max_right _ _
    · right
      calc min (b1.y + b1.h) (b2.y + b2.h) ≤ b2.y + b2.h := min_le_right _ _
        _ ≤ b1.y := h
        _ ≤ max b1.y b2.y := le_max_left _ _
  · intro b1 b2 hw1 hh1 hw2 hh2 hsum
    have h1 : b1.w * b1.h = 0 := by
      have ha : 0 ≤ b1.w * b1.h := mul_nonneg hw1 hh1
      have hb : 0 ≤ b2.w * b2.h := mul_nonneg hw2 hh2
      linarith
    exact compute_iou_eq_zero_of_area_left_eq_zero b1 b2 h1
  · intro b1 b2
    simp only [compute_iou]
    rw [max_comm b1.x b2.x, max_comm b1.y b2.y,
        min_comm (b1.x + b1.w) (b2.x + b2.w), min_comm (b1.y + b1.h) (b2.y + b2.h),
        add_comm (b1.w * b1.h) (b2.w * b2.h)]

/-- Witness for C8 at concrete boxes. -/
theorem compute_iou_self_disjoint_degenerate_symm_witness :
    compute_iou ⟨0, 0, 1, 1⟩ ⟨0, 0, 1, 1⟩ = 1 ∧
    compute_iou ⟨0, 0, 1, 1⟩ ⟨5, 5, 1, 1⟩ = 0 ∧
    compute_iou ⟨0, 0, 0, 1⟩ ⟨0, 0, 0, 2⟩ = 0 ∧
    compute_iou ⟨0, 0, 1, 1⟩ ⟨(1 : ℚ)/2, 0, 1, 1⟩ =
      compute_iou ⟨(1 : ℚ)/2, 0, 1, 1⟩ ⟨0, 0, 1, 1⟩ := by
  refine ⟨compute_iou_self_disjoint_degenerate_symm.1 ⟨0, 0, 1, 1⟩ (by norm_num)
      (by norm_num) (by norm_num),
    compute_iou_self_disjoint_degenerate_symm.2.1 ⟨0, 0, 1, 1⟩ ⟨5, 5, 1, 1⟩
      (Or.inl (by norm_num)),
    compute_iou_self_disjoint_degenerate_symm.2.2.1 ⟨0, 0, 0, 1⟩ ⟨0, 0, 0, 2⟩
      (by norm_num) (by norm_num) (by norm_num) (by norm_num) (by norm_num),
    compute_iou_self_disjoint_degenerate_symm.2.2.2 _ _⟩

/-! ### `src/modules/navigation/spatial.py` -/

/-- Horizontal direction classification. -/
inductive Direction where
  | left
  | center
  | right
deriving DecidableEq, Repr

/-- Distance zone classification. -/
inductive Zone where
  | near
  | mid
  | far
deriving DecidableEq, Repr

/-- Movement classification. -/
inductive Movement where
  | approaching
  | receding
  | stationary
deriving DecidableEq, Repr

/-- Urgency levels. -/
inductive Urgency where
  | low
  | medium
  | high
  | critical
deriving DecidableEq, Repr

/-- One history entry of a track (`tracker.py` pushes
`{"bbox": ..., "frame_id": ..., "timestamp_ms": ...}`). -/
structure HistEntry where
  bbox : BBox
  frame_id : ℕ
  timestamp_ms : ℤ
deriving DecidableEq, Repr

/-- `spatial.py: analyze_direction`. -/
def analyze_direction (bbox : BBox) : Direction :=
  let center_x := bbox.x + bbox.w / 2
  if center_x < 33/100 then .left
  else if center_x < 66/100 then .center
  else .right

/-- `spatial.py: analyze_zone`. -/
def analyze_zone (bbox : BBox) : Zone :=
  let area := bbox.w * bbox.h
  if area > 15/100 then .near
  else if area > 5/100 then .mid
  else .far

/-- `spatial.py: analyze_movement`.  Python indexes `history[-2]`
(second-most-recent entry); we pattern-match on the reversed list, so the
second element of the reverse is exactly `history[-2]`, and a reversed list
with fewer than two elements is the `len(history) < 2` early return. -/
def analyze_movement (current_bbox : BBox) (history : List HistEntry) : Movement :=
  match history.reverse with
  | [] => .stationary
  | [_] => .stationary
  | _ :: prev :: _ =>
    let current_area := current_bbox.w * current_bbox.h
    let prev_area := prev.bbox.w * prev.bbox.h
    -- Growing = approaching, shrinking = receding
    if current_area > prev_area * (105/100) then .approaching
    else if current_area < prev_area * (95/100) then .receding
    else .stationary

/-- `spatial.py: compute_urgency`. -/
def compute_urgency (zone : Zone) (movement : Movement) : Urgency :=
  if zone = .near ∧ movement = .approaching then .critical
  else if zone = .near then .high
  else if zone = .mid ∧ movement = .approaching then .medium
  else .low

/-- C5: movement is `approaching` iff the current area exceeds the
second-most-recent history entry's area by more than 5%, `receding` iff more
than 5% smaller, `stationary` otherwise and whenever the history has fewer
than 2 entries; urgency is `critical` iff near∧approaching, `high` iff near
otherwise, `medium` iff mid∧approaching, else `low`; zones are classed by the
area thresholds `0.15`/`0.05` and direction by center-x thresholds
`0.33`/`0.66`. -/
theorem analyze_movement_compute_urgency_spec :
    (∀ (cur : BBox) (history : List HistEntry), history.length < 2 →
      analyze_movement cur history = .stationary) ∧
    (∀ (cur : BBox) (l : List HistEntry) (prev lst : HistEntry),
      0 ≤ prev.bbox.w * prev.bbox.h →
      ((analyze_movement cur (l ++ [prev, lst]) = .approaching ↔
        cur.w * cur.h > prev.bbox.w * prev.bbox.h * (105/100)) ∧
      (analyze_movement cur (l ++ [prev, lst]) = .receding ↔
        cur.w * cur.h < prev.bbox.w * prev.bbox.h * (95/100)) ∧
      (analyze_movement cur (l ++ [prev, lst]) = .stationary ↔
        (¬ cur.w * cur.h > prev.bbox.w * prev.bbox.h * (105/100) ∧
         ¬ cur.w * cur.h < prev.bbox.w * prev.bbox.h * (95/100))))) ∧
    (∀ z m, (compute_urgency z m = .critical ↔ z = .near ∧ m = .approaching) ∧
      (compute_urgency z m = .high ↔ z = .near ∧ m ≠ .approaching) ∧
      (compute_urgency z m = .medium ↔ z = .mid ∧ m = .approaching) ∧
      (compute_urgency z m = .low ↔ ((z = .mid ∧ m ≠ .approaching) ∨ z = .far))) ∧
    (∀ b : BBox, (analyze_zone b = .near ↔ b.w * b.h > 15/100) ∧
      (analyze_zone b = .mid ↔ (b.w * b.h ≤ 15/100 ∧ b.w * b.h > 5/100)) ∧
      (analyze_zone b = .far ↔ b.w * b.h ≤ 5/100)) ∧
    (∀ b : BBox,
      (analyze_direction b = .left ↔ b.x + b.w / 2 < 33/100) ∧
      (analyze_direction b = .center ↔
        (33/100 ≤ b.x + b.w / 2 ∧ b.x + b.w / 2 < 66/100)) ∧
      (analyze_direction b = .right ↔ 66/100 ≤ b.x + b.w / 2)) := by
  refine ⟨?_, ?_, ?_, ?_, ?_⟩
  · intro cur history h
    rcases history with _ | ⟨a, _ | ⟨b, t⟩⟩
    · simp [analyze_movement]
    · simp [analyze_movement]
    · simp only [List.length_cons] at h; omega
  · intro cur l prev lst hprev
    have hrev : (l ++ [prev, lst]).reverse = lst :: prev :: l.reverse := by simp
    simp only [analyze_movement, hrev]
    split_ifs with h1 h2 <;>
      simp only [reduceCtorEq, iff_true, iff_false, true_iff, false_iff] <;>
      refine ⟨?_, ?_, ?_⟩ <;> simp_all <;> try linarith
  · intro z m
    cases z <;> cases m <;> simp [compute_urgency]
  · intro b
    simp only [analyze_zone]
    split_ifs with h1 h2 <;>
      simp only [reduceCtorEq, iff_true, iff_false, true_iff, false_iff] <;>
      refine ⟨?_, ?_⟩ <;> simp_all <;> try linarith
  · intro b
    simp only [analyze_direction]
    split_ifs with h1 h2 <;>
      simp only [reduceCtorEq, iff_true, iff_false, true_iff, false_iff] <;>
      refine ⟨?_, ?_⟩ <;> simp_all <;> try linarith

/-- Witness for C5 at concrete inputs. -/
theorem analyze_movement_compute_urgency_spec_witness :
    analyze_movement ⟨0, 0, 1, 1⟩ [] = .stationary ∧
    (analyze_movement ⟨0, 0, 1, 1⟩
        ([] ++ [⟨⟨0, 0, 1/2, 1/2⟩, 0, 0⟩, ⟨⟨0, 0, 1, 1⟩, 1, 33⟩]) = .approaching ↔
      (1 : ℚ) * 1 > (1/2) * (1/2) * (105/100)) ∧
    compute_urgency .near .approaching = .critical := by
  refine ⟨analyze_movement_compute_urgency_spec.1 ⟨0, 0, 1, 1⟩ [] (by simp), ?_, ?_⟩
  · have h := (analyze_movement_compute_urgency_spec.2.1 ⟨0, 0, 1, 1⟩ []
      ⟨⟨0, 0, 1/2, 1/2⟩, 0, 0⟩ ⟨⟨0, 0, 1, 1⟩, 1, 33⟩ (by norm_num)).1
    simpa using h
  · exact ((analyze_movement_compute_urgency_spec.2.2.1 .near .approaching).1).mpr
      ⟨rfl, rfl⟩

/-! ### `src/modules/fusion/policy.py` -/

/-- `FusionPolicy` state: `last_announced` is a Python dict
`track_id -> timestamp_ms`, embedded as an insertion-ordered association
list with unique keys, plus the running `announcement_count`. -/
structure FusionPolicy where
  last_announced : List (ℤ × ℤ)
  announcement_count : ℕ
deriving DecidableEq, Repr

/-- Dict lookup `self.last_announced[track_id]` /
`track_id in self.last_announced`. -/
def FusionPolicy.lookupLastAnnounced (p : FusionPolicy) (track_id : ℤ) :
    Option ℤ :=
  (p.last_announced.find? (fun kv => kv.1 = track_id)).map (fun kv => kv.2)

/-- `policy.py: FusionPolicy.should_announce`. -/
def FusionPolicy.should_announce (p : FusionPolicy) (track_id : ℤ)
    (timestamp_ms : ℤ) (urgency : Urgency) (stable : Bool)
    (cooldown_ms : ℤ) : Bool :=
  -- Always announce critical urgency
  if urgency = .critical then true
  -- Only announce stable tracks
  else if stable = false then false
  else
    -- Check cooldown
    match p.lookupLastAnnounced track_id with
    | some last =>
      let elapsed := timestamp_ms - last
      if elapsed < cooldown_ms then false else true
    | none => true

/-- C4: `should_announce` is true for critical urgency regardless of
stability and cooldown; false for non-critical urgency on an unstable
track; false for non-critical urgency on a stable track whose recorded
last announcement is within the cooldown window; true in every remaining
case. -/
theorem should_announce_spec (p : FusionPolicy) (track_id timestamp_ms : ℤ)
    (urgency : Urgency) (stable : Bool) (cooldown_ms : ℤ) :
    (urgency = .critical →
      p.should_announce track_id timestamp_ms urgency stable cooldown_ms = true) ∧
    (urgency ≠ .critical → stable = false →
      p.should_announce track_id timestamp_ms urgency stable cooldown_ms = false) ∧
    (urgency ≠ .critical → stable = true →
      ∀ last, p.lookupLastAnnounced track_id = some last →
        timestamp_ms - last < cooldown_ms →
        p.should_announce track_id timestamp_ms urgency stable cooldown_ms = false) ∧
    (urgency ≠ .critical → stable = true →
      (p.lookupLastAnnounced track_id = none ∨
        (∃ last, p.lookupLastAnnounced track_id = some last ∧
          cooldown_ms ≤ timestamp_ms - last)) →
      p.should_announce track_id timestamp_ms urgency stable cooldown_ms = true) := by
  refine ⟨?_, ?_, ?_, ?_⟩
  · intro h
    simp [FusionPolicy.should_announce, h]
  · intro h hs
    simp [FusionPolicy.should_announce, h, hs]
  · intro h hs last hlast hcd
    simp only [FusionPolicy.should_announce, if_neg h, hs]
    rw [if_neg (by simp)]
    rw [hlast]
    simp [hcd]
  · intro h hs hcase
    simp only [FusionPolicy.should_announce, if_neg h, hs]
    rw [if_neg (by simp)]
    rcases hcase with hnone | ⟨last, hlast, hge⟩
    · rw [hnone]
    · rw [hlast]
      simp
      linarith

/-- Witness for C4 at concrete inputs. -/
theorem should_announce_spec_witness :
    FusionPolicy.should_announce ⟨[], 0⟩ 1 0 .critical false 3000 = true ∧
    FusionPolicy.should_announce ⟨[], 0⟩ 1 0 .low false 3000 = false ∧
    FusionPolicy.should_announce ⟨[(1, 0)], 1⟩ 1 100 .low true 3000 = false ∧
    FusionPolicy.should_announce ⟨[(1, 0)], 1⟩ 1 5000 .low true 3000 = true := by
  refine ⟨(should_announce_spec ⟨[], 0⟩ 1 0 .critical false 3000).1 rfl,
    (should_announce_spec ⟨[], 0⟩ 1 0 .low false 3000).2.1 (by simp) rfl,
    (should_announce_spec ⟨[(1, 0)], 1⟩ 1 100 .low true 3000).2.2.1 (by simp) rfl
      0 (by simp [FusionPolicy.lookupLastAnnounced]) (by norm_num),
    (should_announce_spec ⟨[(1, 0)], 1⟩ 1 5000 .low true 3000).2.2.2 (by simp) rfl
      (Or.inr ⟨0, by simp [FusionPolicy.lookupLastAnnounced], by norm_num⟩)⟩

/-! ### `src/core_platform/frame_bus.py` and `result_bus.py`

A subscriber's `asyncio.Queue` is embedded as a `List (Option α)` with the
head the oldest item; `none` models the `None` end-of-stream sentinel.
`put_nowait` raises `QueueFull` iff the queue was created with positive
`maxsize` and currently holds at least `maxsize` items. -/

/-- `FrameBus` state: capacity and the registered subscriber queues. -/
structure FrameBus (α : Type) where
  queue_size : ℕ
  subscribers : List (List (Option α))
deriving DecidableEq, Repr

/-- Effect of `FrameBus.publish` on one subscriber queue: if the queue
holds at least `queue_size` items the oldest is removed (`get_nowait`,
with `QueueEmpty` swallowed), then `put_nowait(frame)` is attempted and a
`QueueFull` failure is swallowed (frame dropped). -/
def framePublishQueue (queue_size : ℕ) (q : List (Option α)) (frame : α) :
    List (Option α) :=
  -- Drop oldest frame if queue is full
  let q1 := if queue_size ≤ q.length then q.tail else q
  if 0 < queue_size ∧ queue_size ≤ q1.length then q1 else q1 ++ [some frame]

/-- `frame_bus.py: FrameBus.publish`. -/
def FrameBus.publish (bus : FrameBus α) (frame : α) : FrameBus α :=
  { bus with
    subscribers :=
      bus.subscribers.map (fun q => framePublishQueue bus.queue_size q frame) }

/-- Effect of `shutdown` on one subscriber queue: `put_nowait(None)` with
a `QueueFull` failure swallowed (sentinel dropped, queue unchanged). -/
def shutdownQueue (queue_size : ℕ) (q : List (Option α)) : List (Option α) :=
  if 0 < queue_size ∧ queue_size ≤ q.length then q else q ++ [none]

/-- `frame_bus.py: FrameBus.shutdown`. -/
def FrameBus.shutdown (bus : FrameBus α) : FrameBus α :=
  { bus with
    subscribers := bus.subscribers.map (fun q => shutdownQueue bus.queue_size q) }

/-- `ResultBus` state. -/
structure ResultBus (α : Type) where
  queue_size : ℕ
  subscribers : List (List (Option α))
  event_count : ℕ
deriving DecidableEq, Repr

/-- Effect of `ResultBus.publish` on one subscriber queue:
`put_nowait(event)` with a `QueueFull` failure swallowed (the new event is
dropped, the queue is left as it was). -/
def resultPublishQueue (queue_size : ℕ) (q : List (Option α)) (event : α) :
    List (Option α) :=
  if 0 < queue_size ∧ queue_size ≤ q.length then q else q ++ [some event]

/-- `result_bus.py: ResultBus.publish`. -/
def ResultBus.publish (bus : ResultBus α) (event : α) : ResultBus α :=
  { bus with
    event_count := bus.event_count + 1
    subscribers :=
      bus.subscribers.map (fun q => resultPublishQueue bus.queue_size q event) }

/-- `result_bus.py: ResultBus.shutdown` (same sentinel logic as FrameBus). -/
def ResultBus.shutdown (bus : ResultBus α) : ResultBus α :=
  { bus with
    subscribers := bus.subscribers.map (fun q => shutdownQueue bus.queue_size q) }

/-- C7: publishing on `ResultBus` to a full subscriber queue drops the new
event and leaves that queue entirely unchanged; in every case the old
queue content is a prefix of the new one (FIFO order of retained items
preserved, no older event is ever evicted). -/
theorem resultBus_publish_drop_newest (bus : ResultBus ℕ) (event : ℕ)
    (i : ℕ) (hi : i < bus.subscribers.length) :
    (0 < bus.queue_size → bus.queue_size ≤ (bus.subscribers.getD i []).length →
      (bus.publish event).subscribers.getD i [] = bus.subscribers.getD i []) ∧
    (bus.subscribers.getD i []) <+: ((bus.publish event).subscribers.getD i []) := by
  have hmap : (bus.publish event).subscribers.getD i [] =
      resultPublishQueue bus.queue_size (bus.subscribers.getD i []) event := by
    simp only [ResultBus.publish]
    rw [List.getD_eq_getElem?_getD, List.getD_eq_getElem?_getD,
      List.getElem?_map, List.getElem?_eq_getElem hi]
    simp
  constructor
  · intro hpos hfull
    rw [hmap, resultPublishQueue, if_pos ⟨hpos, hfull⟩]
  · rw [hmap, resultPublishQueue]
    split_ifs
    · exact List.prefix_refl _
    · exact ⟨[some event], rfl⟩

/-- Witness for C7 at a concrete bus: one subscriber at capacity 1. -/
theorem resultBus_publish_drop_newest_witness :
    ((⟨1, [[some 3]], 0⟩ : ResultBus ℕ).publish 9).subscribers.getD 0 [] =
      [some 3] ∧
    [some 3] <+: ((⟨1, [[some 3]], 0⟩ : ResultBus ℕ).publish 9).subscribers.getD 0 [] := by
  have h := resultBus_publish_drop_newest (⟨1, [[some 3]], 0⟩ : ResultBus ℕ) 9 0
    (by simp)
  exact ⟨h.1 (by norm_num) (by simp), h.2⟩

/-- C6 counterexample: the claim that `shutdown()` leaves the sentinel in
every subscriber queue (evicting if necessary) fails on a full queue.  A
`FrameBus` of capacity 2 with one subscriber receives two frames (queue
full), and a `ResultBus` of capacity 1 receives one event; `shutdown`
swallows the `QueueFull` and the sentinel is absent in both. -/
theorem bus_shutdown_sentinel_counterexample :
    ((((⟨2, [[]]⟩ : FrameBus ℕ).publish 7).publish 8).shutdown).subscribers =
      [[some 7, some 8]] ∧
    none ∉ ((((⟨2, [[]]⟩ : FrameBus ℕ).publish 7).publish 8).shutdown).subscribers.getD 0 [] ∧
    (((⟨1, [[]], 0⟩ : ResultBus ℕ).publish 5).shutdown).subscribers = [[some 5]] ∧
    none ∉ (((⟨1, [[]], 0⟩ : ResultBus ℕ).publish 5).shutdown).subscribers.getD 0 [] := by
  refine ⟨?_, ?_, ?_, ?_⟩ <;> decide

/-- C6 amended: `shutdown` appends the end-of-stream sentinel to every
subscriber queue that is below capacity (or has unbounded capacity), and
leaves a full subscriber queue unchanged — the sentinel is dropped there,
with no eviction.  Stated for both buses. -/
theorem bus_shutdown_sentinel_spec (fbus : FrameBus ℕ) (rbus : ResultBus ℕ)
    (i : ℕ) (hif : i < fbus.subscribers.length)
    (hir : i < rbus.subscribers.length) :
    ((¬ (0 < fbus.queue_size ∧ fbus.queue_size ≤ (fbus.subscribers.getD i []).length) →
      fbus.shutdown.subscribers.getD i [] = fbus.subscribers.getD i [] ++ [none]) ∧
    (0 < fbus.queue_size → fbus.queue_size ≤ (fbus.subscribers.getD i []).length →
      fbus.shutdown.subscribers.getD i [] = fbus.subscribers.getD i [])) ∧
    ((¬ (0 < rbus.queue_size ∧ rbus.queue_size ≤ (rbus.subscribers.getD i []).length) →
      rbus.shutdown.subscribers.getD i [] = rbus.subscribers.getD i [] ++ [none]) ∧
    (0 < rbus.queue_size → rbus.queue_size ≤ (rbus.subscribers.getD i []).length →
      rbus.shutdown.subscribers.getD i [] = rbus.subscribers.getD i [])) := by
  have hmapf : fbus.shutdown.subscribers.getD i [] =
      shutdownQueue fbus.queue_size (fbus.subscribers.getD i []) := by
    simp only [FrameBus.shutdown]
    rw [List.getD_eq_getElem?_getD, List.getD_eq_getElem?_getD,
      List.getElem?_map, List.getElem?_eq_getElem hif]
    simp
  have hmapr : rbus.shutdown.subscribers.getD i [] =
      shutdownQueue rbus.queue_size (rbus.subscribers.getD i []) := by
    simp only [ResultBus.shutdown]
    rw [List.getD_eq_getElem?_getD, List.getD_eq_getElem?_getD,
      List.getElem?_map, List.getElem?_eq_getElem hir]
    simp
  refine ⟨⟨?_, ?_⟩, ⟨?_, ?_⟩⟩
  · intro h; rw [hmapf, shutdownQueue, if_neg h]
  · intro h1 h2; rw [hmapf, shutdownQueue, if_pos ⟨h1, h2⟩]
  · intro h; rw [hmapr, shutdownQueue, if_neg h]
  · intro h1 h2; rw [hmapr, shutdownQueue, if_pos ⟨h1, h2⟩]

/-- Witness for the amended C6 at concrete buses. -/
theorem bus_shutdown_sentinel_spec_witness :
    (⟨2, [[some 4]]⟩ : FrameBus ℕ).shutdown.subscribers.getD 0 [] =
      [some 4, none] ∧
    (⟨1, [[some 5]], 0⟩ : ResultBus ℕ).shutdown.subscribers.getD 0 [] =
      [some 5] := by
  have h := bus_shutdown_sentinel_spec (⟨2, [[some 4]]⟩ : FrameBus ℕ)
    (⟨1, [[some 5]], 0⟩ : ResultBus ℕ) 0 (by simp) (by simp)
  exact ⟨h.1.1 (by simp), h.2.2 (by norm_num) (by simp)⟩

/-! ### `src/core_platform/control_state.py`

Python attribute values are dynamically typed, so a field holds an
arbitrary `PyValue`.  `hasattr(self, key)` on a `ControlState` instance
is true for the seven dataclass instance attributes (six fields plus the
private `_lock`) **and** for every class attribute — the methods
`update` and `get_snapshot` defined in the source, and the inherited
dunders the runtime provides.  `setattr` on a dataclass field rebinds
that field; `setattr` on a class-attribute name binds an instance
attribute that shadows it.  The embedding keeps the seven fields as
slots, carries the shadowing instance attributes as an insertion-ordered
dict, and takes the remainder of the attribute-name table as an abstract
parameter `extraAttr` (the source does not enumerate the inherited
names); theorems quantify over every such table.  `setattr` is modelled
as a plain instance-dict bind, which is exact for the fields, the
methods and ordinary inherited attributes; special descriptor names such
as `__class__`, whose `setattr` performs extra runtime checks, are
outside the scope of this embedding. -/

/-- A dynamically-typed Python value as stored on `ControlState`. -/
inductive PyValue where
  | pyBool (b : Bool)
  | pyRat (q : ℚ)
  | pyInt (n : ℤ)
  | pyNone
  | pyLock
deriving DecidableEq, Repr

/-- The instance attributes of the `ControlState` dataclass. -/
inductive CSField where
  | paused
  | speed
  | pending_seek
  | detection_conf_threshold
  | tracker_iou_threshold
  | fusion_cooldown_seconds
  | lockField
deriving DecidableEq, Repr

/-- Python attribute name of each field (`_lock` is the private lock). -/
def CSField.pyName : CSField → String
  | .paused => "paused"
  | .speed => "speed"
  | .pending_seek => "pending_seek"
  | .detection_conf_threshold => "detection_conf_threshold"
  | .tracker_iou_threshold => "tracker_iou_threshold"
  | .fusion_cooldown_seconds => "fusion_cooldown_seconds"
  | .lockField => "_lock"

/-- `control_state.py: ControlState`: the seven dataclass slots plus the
shadowing instance attributes (`setattr` over class-attribute names such
as the method names), an insertion-ordered dict, empty on a freshly
constructed instance. -/
structure ControlState where
  attrs : CSField → PyValue
  shadow : List (String × PyValue)

/-- The dataclass instance field named `key`, if any — one part of
`hasattr(self, key)`; class-attribute names (methods, dunders) are
covered separately by the `extraAttr` table. -/
def fieldOfName (key : String) : Option CSField :=
  if key = "paused" then some .paused
  else if key = "speed" then some .speed
  else if key = "pending_seek" then some .pending_seek
  else if key = "detection_conf_threshold" then some .detection_conf_threshold
  else if key = "tracker_iou_threshold" then some .tracker_iou_threshold
  else if key = "fusion_cooldown_seconds" then some .fusion_cooldown_seconds
  else if key = "_lock" then some .lockField
  else none

/-- `setattr(self, key, value)` for a dataclass field. -/
def ControlState.setField (s : ControlState) (f : CSField) (v : PyValue) :
    ControlState :=
  { s with attrs := fun g => if g = f then v else s.attrs g }

/-- Instance-dict bind: overwrite in place if the key is present
(position kept), else append — Python dict assignment semantics. -/
def setShadow (l : List (String × PyValue)) (k : String) (v : PyValue) :
    List (String × PyValue) :=
  if l.any (fun kv => kv.1 = k) then
    l.map (fun kv => if kv.1 = k then (k, v) else kv)
  else l ++ [(k, v)]

/-- Instance-dict lookup. -/
def lookupShadow (l : List (String × PyValue)) (k : String) :
    Option PyValue :=
  (l.find? (fun kv => kv.1 = k)).map (fun kv => kv.2)

/-- `control_state.py: ControlState.update(**kwargs)`: for each keyword
in order, if `hasattr(self, key)` then `setattr(self, key, value)`,
otherwise nothing happens.  `extraAttr` is the table of attribute names
beyond the dataclass fields for which `hasattr` is true (the methods
`update`, `get_snapshot` and the inherited dunders); `setattr` on such a
name binds a shadowing instance attribute. -/
def ControlState.update (extraAttr : String → Bool) (s : ControlState)
    (kwargs : List (String × PyValue)) : ControlState :=
  kwargs.foldl
    (fun st kv =>
      match fieldOfName kv.1 with
      | some f => st.setField f kv.2
      | none =>
        if extraAttr kv.1 then
          { st with shadow := setShadow st.shadow kv.1 kv.2 }
        else st)
    s

lemma fieldOfName_pyName (f : CSField) : fieldOfName f.pyName = some f := by
  cases f <;> rfl

lemma pyName_injective {f g : CSField} (h : f.pyName = g.pyName) : f = g := by
  cases f <;> cases g <;> first | rfl | (exfalso; exact absurd h (by decide))

lemma setField_attrs_self (s : ControlState) (f : CSField) (v : PyValue) :
    (s.setField f v).attrs f = v := by
  simp [ControlState.setField]

lemma setField_attrs_ne (s : ControlState) (f g : CSField) (v : PyValue)
    (h : g ≠ f) : (s.setField f v).attrs g = s.attrs g := by
  simp [ControlState.setField, h]

lemma lookupShadow_mapupd_self (k : String) (v : PyValue) :
    ∀ l : List (String × PyValue), l.any (fun kv => kv.1 = k) = true →
      lookupShadow (l.map (fun kv => if kv.1 = k then (k, v) else kv)) k =
        some v := by
  intro l
  induction l with
  | nil => intro h; simp at h
  | cons kv rest ih =>
    intro h
    simp only [List.map_cons]
    by_cases pk : kv.1 = k
    · rw [if_pos pk]
      unfold lookupShadow
      rw [List.find?_cons_of_pos _ (by simp)]
      rfl
    · rw [if_neg pk]
      unfold lookupShadow
      rw [List.find?_cons_of_neg _ (by simp [pk])]
      have hrest : rest.any (fun kv => kv.1 = k) = true := by
        simp only [List.any_cons, Bool.or_eq_true, decide_eq_true_eq] at h
        rcases h with h | h
        · exact absurd h pk
        · exact h
      exact ih hrest

lemma lookupShadow_append_single_self (k : String) (v : PyValue) :
    ∀ l : List (String × PyValue), l.any (fun kv => kv.1 = k) = false →
      lookupShadow (l ++ [(k, v)]) k = some v := by
  intro l
  induction l with
  | nil =>
    intro _
    unfold lookupShadow
    rw [List.nil_append, List.find?_cons_of_pos _ (by simp)]
    rfl
  | cons kv rest ih =>
    intro h
    simp only [List.any_cons, Bool.or_eq_false_iff, decide_eq_false_iff_not]
      at h
    unfold lookupShadow
    rw [List.cons_append, List.find?_cons_of_neg _ (by simp [h.1])]
    exact ih h.2

lemma lookupShadow_setShadow_self (l : List (String × PyValue)) (k : String)
    (v : PyValue) : lookupShadow (setShadow l k v) k = some v := by
  unfold setShadow
  by_cases h : l.any (fun kv => kv.1 = k) = true
  · rw [if_pos h]
    exact lookupShadow_mapupd_self k v l h
  · rw [if_neg h]
    exact lookupShadow_append_single_self k v l (Bool.eq_false_iff.mpr h)

lemma lookupShadow_mapupd_ne (k k' : String) (v : PyValue) (hne : k' ≠ k) :
    ∀ l : List (String × PyValue),
      lookupShadow (l.map (fun kv => if kv.1 = k then (k, v) else kv)) k' =
        lookupShadow l k' := by
  intro l
  induction l with
  | nil => rfl
  | cons kv rest ih =>
    simp only [List.map_cons]
    by_cases pk : kv.1 = k
    · rw [if_pos pk]
      unfold lookupShadow
      rw [List.find?_cons_of_neg _ (by simp; exact fun hk => hne hk.symm),
        List.find?_cons_of_neg _ (by
          simp only [decide_eq_true_eq]
          rw [pk]
          exact fun hk => hne hk.symm)]
      exact ih
    · rw [if_neg pk]
      by_cases pk' : kv.1 = k'
      · unfold lookupShadow
        rw [List.find?_cons_of_pos _ (by simp [pk']),
          List.find?_cons_of_pos _ (by simp [pk'])]
      · unfold lookupShadow
        rw [List.find?_cons_of_neg _ (by simp [pk']),
          List.find?_cons_of_neg _ (by simp [pk'])]
        exact ih

lemma lookupShadow_append_single_ne (k k' : String) (v : PyValue)
    (hne : k' ≠ k) :
    ∀ l : List (String × PyValue),
      lookupShadow (l ++ [(k, v)]) k' = lookupShadow l k' := by
  intro l
  induction l with
  | nil =>
    unfold lookupShadow
    rw [List.nil_append, List.find?_cons_of_neg _
      (by simp; exact fun hk => hne hk.symm)]
  | cons kv rest ih =>
    by_cases pk' : kv.1 = k'
    · unfold lookupShadow
      rw [List.cons_append, List.find?_cons_of_pos _ (by simp [pk']),
        List.find?_cons_of_pos _ (by simp [pk'])]
    · unfold lookupShadow
      rw [List.cons_append, List.find?_cons_of_neg _ (by simp [pk']),
        List.find?_cons_of_neg _ (by simp [pk'])]
      exact ih

lemma lookupShadow_setShadow_ne (l : List (String × PyValue))
    (k k' : String) (v : PyValue) (hne : k' ≠ k) :
    lookupShadow (setShadow l k v) k' = lookupShadow l k' := by
  unfold setShadow
  split_ifs with h
  · exact lookupShadow_mapupd_ne k k' v hne l
  · exact lookupShadow_append_single_ne k k' v hne l

/-- Fields whose name is not mentioned in `kwargs` are unchanged. -/
lemma update_attrs_of_not_mem (extraAttr : String → Bool)
    (s : ControlState) (kwargs : List (String × PyValue)) (f : CSField)
    (h : ∀ kv ∈ kwargs, kv.1 ≠ f.pyName) :
    (ControlState.update extraAttr s kwargs).attrs f = s.attrs f := by
  induction kwargs generalizing s with
  | nil => rfl
  | cons kv rest ih =>
    have hkv : kv.1 ≠ f.pyName := h kv (List.mem_cons_self kv rest)
    have hrest : ∀ kv' ∈ rest, kv'.1 ≠ f.pyName :=
      fun kv' hm => h kv' (List.mem_cons_of_mem kv hm)
    simp only [ControlState.update, List.foldl_cons]
    rcases hf : fieldOfName kv.1 with _ | g
    · change (ControlState.update extraAttr
        (if extraAttr kv.1 = true then
          { s with shadow := setShadow s.shadow kv.1 kv.2 } else s)
        rest).attrs f = s.attrs f
      by_cases he : extraAttr kv.1 = true
      · rw [if_pos he]
        exact ih { s with shadow := setShadow s.shadow kv.1 kv.2 } hrest
      · rw [if_neg he]
        exact ih s hrest
    · have hne : f ≠ g := by
        intro hfg
        subst hfg
        have : kv.1 = f.pyName := by
          revert hf
          unfold fieldOfName
          split_ifs with h1 h2 h3 h4 h5 h6 h7 <;> intro hf <;>
            first
            | (cases hf; simp [CSField.pyName, *])
            | exact absurd hf (by simp)
        exact hkv this
      change (ControlState.update extraAttr (s.setField g kv.2) rest).attrs f =
        s.attrs f
      rw [ih (s.setField g kv.2) hrest]
      exact setField_attrs_ne s g f kv.2 hne

/-- Shadowed instance attributes whose name is not mentioned in `kwargs`
are unchanged. -/
lemma update_shadow_of_not_mem (extraAttr : String → Bool)
    (s : ControlState) (kwargs : List (String × PyValue)) (k : String)
    (h : ∀ kv ∈ kwargs, kv.1 ≠ k) :
    lookupShadow (ControlState.update extraAttr s kwargs).shadow k =
      lookupShadow s.shadow k := by
  induction kwargs generalizing s with
  | nil => rfl
  | cons kv rest ih =>
    have hkv : kv.1 ≠ k := h kv (List.mem_cons_self kv rest)
    have hrest : ∀ kv' ∈ rest, kv'.1 ≠ k :=
      fun kv' hm => h kv' (List.mem_cons_of_mem kv hm)
    simp only [ControlState.update, List.foldl_cons]
    rcases hf : fieldOfName kv.1 with _ | g
    · change lookupShadow (ControlState.update extraAttr
        (if extraAttr kv.1 = true then
          { s with shadow := setShadow s.shadow kv.1 kv.2 } else s)
        rest).shadow k = lookupShadow s.shadow k
      by_cases he : extraAttr kv.1 = true
      · rw [if_pos he,
          ih { s with shadow := setShadow s.shadow kv.1 kv.2 } hrest]
        exact lookupShadow_setShadow_ne s.shadow kv.1 k kv.2
          (fun hk => hkv hk.symm)
      · rw [if_neg he]
        exact ih s hrest
    · change lookupShadow (ControlState.update extraAttr (s.setField g kv.2)
        rest).shadow k = lookupShadow s.shadow k
      rw [ih (s.setField g kv.2) hrest]
      rfl

/-- C10: over every attribute-name table `extraAttr` extending the
dataclass fields (methods, inherited dunders): a keyword naming no
attribute at all is silently ignored (the state, fields and shadow dict
alike, is untouched, and no attribute is created — `update` is total, no
error is raised); a keyword naming a dataclass field assigns it (last
assignment winning); a keyword naming a class attribute such as the
method `update` binds a shadowing instance attribute with the given
value; fields and shadowed attributes not named in the call are left
unchanged. -/
theorem controlState_update_spec :
    (∀ (extraAttr : String → Bool) (s : ControlState)
      (kwargs : List (String × PyValue)),
      (∀ kv ∈ kwargs, fieldOfName kv.1 = none ∧ extraAttr kv.1 = false) →
      ControlState.update extraAttr s kwargs = s) ∧
    (∀ (extraAttr : String → Bool) (s : ControlState)
      (kwargs : List (String × PyValue)) (f : CSField),
      (∀ kv ∈ kwargs, kv.1 ≠ f.pyName) →
      (ControlState.update extraAttr s kwargs).attrs f = s.attrs f) ∧
    (∀ (extraAttr : String → Bool) (s : ControlState)
      (pre rest : List (String × PyValue)) (f : CSField) (v : PyValue),
      (∀ kv ∈ rest, kv.1 ≠ f.pyName) →
      (ControlState.update extraAttr s
        (pre ++ (f.pyName, v) :: rest)).attrs f = v) ∧
    (∀ (extraAttr : String → Bool) (s : ControlState)
      (pre rest : List (String × PyValue)) (k : String) (v : PyValue),
      fieldOfName k = none → extraAttr k = true →
      (∀ kv ∈ rest, kv.1 ≠ k) →
      lookupShadow (ControlState.update extraAttr s
        (pre ++ (k, v) :: rest)).shadow k = some v) ∧
    (∀ (extraAttr : String → Bool) (s : ControlState)
      (kwargs : List (String × PyValue)) (k : String),
      (∀ kv ∈ kwargs, kv.1 ≠ k) →
      lookupShadow (ControlState.update extraAttr s kwargs).shadow k =
        lookupShadow s.shadow k) := by
  refine ⟨?_, update_attrs_of_not_mem, ?_, ?_, update_shadow_of_not_mem⟩
  · intro extraAttr s kwargs h
    induction kwargs generalizing s with
    | nil => rfl
    | cons kv rest ih =>
      simp only [ControlState.update, List.foldl_cons,
        (h kv (List.mem_cons_self kv rest)).1]
      rw [if_neg (by rw [(h kv (List.mem_cons_self kv rest)).2]; simp)]
      exact ih s (fun kv' hm => h kv' (List.mem_cons_of_mem kv hm))
  · intro extraAttr s pre rest f v hrest
    have hsplit : ControlState.update extraAttr s
        (pre ++ (f.pyName, v) :: rest) =
        ControlState.update extraAttr
          ((ControlState.update extraAttr s pre).setField f v) rest := by
      simp only [ControlState.update, List.foldl_append, List.foldl_cons]
      rw [fieldOfName_pyName]
    rw [hsplit, update_attrs_of_not_mem _ _ _ _ hrest, setField_attrs_self]
  · intro extraAttr s pre rest k v hfn hex hrest
    have hsplit : ControlState.update extraAttr s (pre ++ (k, v) :: rest) =
        ControlState.update extraAttr
          { ControlState.update extraAttr s pre with
            shadow := setShadow (ControlState.update extraAttr s pre).shadow
              k v } rest := by
      simp only [ControlState.update, List.foldl_append, List.foldl_cons,
        hfn]
      rw [if_pos hex]
    rw [hsplit, update_shadow_of_not_mem _ _ _ _ hrest]
    exact lookupShadow_setShadow_self _ k v

/-- Witness for C10: an unknown key is a no-op, unnamed fields and
shadow entries are untouched, a field key assigns, and the key `update`
— a method name, hence `hasattr` true — binds a shadowing instance
attribute, matching `cs.update(update=5)` in Python. -/
theorem controlState_update_spec_witness :
    ControlState.update (fun _ => false)
      (ControlState.mk (fun _ => PyValue.pyNone) [])
      [("nonexistent_key", PyValue.pyInt 3)] =
      ControlState.mk (fun _ => PyValue.pyNone) [] ∧
    (ControlState.update (fun key => key == "update" || key == "get_snapshot")
      (ControlState.mk (fun _ => PyValue.pyNone) [])
      [("speed", PyValue.pyRat 2)]).attrs CSField.paused = PyValue.pyNone ∧
    (ControlState.update (fun key => key == "update" || key == "get_snapshot")
      (ControlState.mk (fun _ => PyValue.pyNone) [])
      ([("paused", PyValue.pyBool true)] ++
        ("speed", PyValue.pyRat 2) :: [])).attrs CSField.speed =
      PyValue.pyRat 2 ∧
    lookupShadow (ControlState.update
      (fun key => key == "update" || key == "get_snapshot")
      (ControlState.mk (fun _ => PyValue.pyNone) [])
      ([] ++ ("update", PyValue.pyInt 5) :: [])).shadow ("update") =
      some (PyValue.pyInt 5) ∧
    lookupShadow (ControlState.update
      (fun key => key == "update" || key == "get_snapshot")
      (ControlState.mk (fun _ => PyValue.pyNone) [])
      [("speed", PyValue.pyRat 2)]).shadow ("get_snapshot") = none := by
  refine ⟨controlState_update_spec.1 _ _ _ ?_,
    controlState_update_spec.2.1 _ _ _ _ ?_,
    controlState_update_spec.2.2.1 _ _ [("paused", PyValue.pyBool true)] []
      CSField.speed (PyValue.pyRat 2) ?_,
    controlState_update_spec.2.2.2.1 _ _ [] [] ("update")
      (PyValue.pyInt 5) (by decide) (by decide) ?_,
    (controlState_update_spec.2.2.2.2 _ _ _ ("get_snapshot") ?_).trans rfl⟩
  · intro kv hm
    simp only [List.mem_singleton] at hm
    subst hm
    exact ⟨by decide, rfl⟩
  · intro kv hm
    simp only [List.mem_singleton] at hm
    subst hm
    simp [CSField.pyName]
  · intro kv hm
    simp at hm
  · intro kv hm
    simp at hm
  · intro kv hm
    simp only [List.mem_singleton] at hm
    subst hm
    decide

/-! ### `src/modules/tracker/tracker.py` -/

/-- State of a single tracked object. -/
structure Track where
  track_id : ℕ
  label : String
  bbox : BBox
  history : List HistEntry
  consecutive_hits : ℕ
  frames_since_update : ℕ
  stable : Bool
deriving DecidableEq, Repr

/-- `deque(maxlen=5)` append: when capacity is exceeded the oldest
(leftmost) entry is dropped. -/
def dequeAppend5 (l : List HistEntry) (e : HistEntry) : List HistEntry :=
  let l2 := l ++ [e]
  if 5 < l2.length then l2.tail else l2

/-- `tracker.py: Track.update` — update track with a new detection. -/
def Track.update (t : Track) (bbox : BBox) (frame_id : ℕ)
    (timestamp_ms : ℤ) : Track :=
  let hits := t.consecutive_hits + 1
  { t with
    bbox := bbox
    history := dequeAppend5 t.history ⟨bbox, frame_id, timestamp_ms⟩
    consecutive_hits := hits
    frames_since_update := 0
    -- Mark as stable after N consecutive hits
    stable := if 3 ≤ hits then true else t.stable }

/-- `tracker.py: Track.mark_missed`. -/
def Track.mark_missed (t : Track) : Track :=
  { t with
    frames_since_update := t.frames_since_update + 1
    consecutive_hits := 0 }

/-- `tracker.py: Track.compute_velocity` — difference of bbox centers of
the two most recent history entries, absent when fewer than 2 entries. -/
def Track.compute_velocity (t : Track) : Option (ℚ × ℚ) :=
  match t.history.reverse with
  | recent :: prev :: _ =>
    let rcx := recent.bbox.x + recent.bbox.w / 2
    let rcy := recent.bbox.y + recent.bbox.h / 2
    let pcx := prev.bbox.x + prev.bbox.w / 2
    let pcy := prev.bbox.y + prev.bbox.h / 2
    some (rcx - pcx, rcy - pcy)
  | _ => none

/-- The tracker: eviction age, the next fresh id, and the track table as
an insertion-ordered association list (Python dict). -/
structure Tracker where
  max_age : ℕ
  next_track_id : ℕ
  tracks : List (ℕ × Track)
deriving DecidableEq, Repr

/-- `tracker.py: Tracker.create_track` — a fresh `Track` built from the
dataclass defaults (hits 0, frames 0, not stable, empty history), then
updated once with the creating detection, inserted under the fresh id,
and the id counter incremented. -/
def Tracker.create_track (tr : Tracker) (label : String) (bbox : BBox)
    (frame_id : ℕ) (timestamp_ms : ℤ) : Tracker × Track :=
  let track0 : Track :=
    { track_id := tr.next_track_id
      label := label
      bbox := bbox
      history := []
      consecutive_hits := 0
      frames_since_update := 0
      stable := false }
  let track := track0.update bbox frame_id timestamp_ms
  ({ tr with
      tracks := tr.tracks ++ [(track.track_id, track)]
      next_track_id := tr.next_track_id + 1 },
    track)

/-- The per-cycle operations a live track undergoes: a successful update
(match) or a missed cycle. -/
inductive TrackOp where
  | upd (bbox : BBox) (frame_id : ℕ) (timestamp_ms : ℤ)
  | miss
deriving DecidableEq, Repr

/-- Apply one operation to a track. -/
def Track.applyOp (t : Track) : TrackOp → Track
  | .upd b f ts => t.update b f ts
  | .miss => t.mark_missed

/-- Apply a sequence of operations to a track. -/
def Track.applyOps (t : Track) (ops : List TrackOp) : Track :=
  ops.foldl Track.applyOp t

lemma applyOps_cons (t : Track) (op : TrackOp) (ops : List TrackOp) :
    t.applyOps (op :: ops) = (t.applyOp op).applyOps ops := rfl

/-- One step: the track is stable afterwards iff it already was, or the
step just brought `consecutive_hits` to 3 or more. -/
lemma applyOp_stable_iff (t : Track) (op : TrackOp) :
    ((t.applyOp op).stable = true ↔
      (t.stable = true ∨ 3 ≤ (t.applyOp op).consecutive_hits)) := by
  cases op with
  | upd b f ts =>
    simp only [Track.applyOp, Track.update]
    split_ifs with hc
    · simp [hc]
    · simp [hc]
  | miss =>
    simp [Track.applyOp, Track.mark_missed]

/-- Over any operation sequence: stable at the end iff stable at the
start or `consecutive_hits` reached 3 after some nonempty prefix. -/
lemma applyOps_stable_iff (ops : List TrackOp) (t : Track) :
    ((t.applyOps ops).stable = true ↔
      (t.stable = true ∨
        ∃ n, 1 ≤ n ∧ n ≤ ops.length ∧
          3 ≤ (t.applyOps (ops.take n)).consecutive_hits)) := by
  induction ops generalizing t with
  | nil =>
    simp only [Track.applyOps, List.foldl_nil, List.length_nil]
    constructor
    · exact fun h => Or.inl h
    · rintro (h | ⟨n, h1, h2, _⟩)
      · exact h
      · omega
  | cons op ops ih =>
    rw [applyOps_cons, ih, applyOp_stable_iff]
    constructor
    · rintro ((h | h) | ⟨n, h1, h2, h3⟩)
      · exact Or.inl h
      · refine Or.inr ⟨1, le_refl 1, by simp, ?_⟩
        simpa [applyOps_cons, Track.applyOps] using h
      · refine Or.inr ⟨n + 1, by omega, by simp; omega, ?_⟩
        rw [show (op :: ops).take (n + 1) = op :: ops.take n from rfl,
          applyOps_cons]
        exact h3
    · rintro (h | ⟨n, h1, h2, h3⟩)
      · exact Or.inl (Or.inl h)
      · rcases n with _ | m
        · omega
        · rw [show (op :: ops).take (m + 1) = op :: ops.take m from rfl,
            applyOps_cons] at h3
          rcases Nat.eq_zero_or_pos m with hm | hm
          · subst hm
            simp only [List.take_zero] at h3
            refine Or.inl (Or.inr ?_)
            simpa [Track.applyOps] using h3
          · refine Or.inr ⟨m, hm, ?_, h3⟩
            simp only [List.length_cons] at h2
            omega

/-- C1: a track's `stable` flag becomes true exactly when
`consecutive_hits` reaches 3 after some nonempty prefix of its
post-creation operations (the creation itself performs the first update,
so it starts with `consecutive_hits = 1` and `stable = false`), it is
never reset by `mark_missed`, and it is monotone under every operation. -/
theorem track_stable_spec :
    (∀ t : Track, t.mark_missed.stable = t.stable) ∧
    (∀ (t : Track) (op : TrackOp), t.stable = true →
      (t.applyOp op).stable = true) ∧
    (∀ (tr : Tracker) (label : String) (bbox : BBox) (frame_id : ℕ)
      (ts : ℤ) (ops : List TrackOp),
      ((tr.create_track label bbox frame_id ts).2.consecutive_hits = 1 ∧
       (tr.create_track label bbox frame_id ts).2.stable = false) ∧
      (((tr.create_track label bbox frame_id ts).2.applyOps ops).stable = true ↔
        ∃ n, 1 ≤ n ∧ n ≤ ops.length ∧
          3 ≤ ((tr.create_track label bbox frame_id ts).2.applyOps
            (ops.take n)).consecutive_hits)) := by
  refine ⟨fun t => rfl, ?_, ?_⟩
  · intro t op h
    rw [applyOp_stable_iff]
    exact Or.inl h
  · intro tr label bbox frame_id ts ops
    have hbase : (tr.create_track label bbox frame_id ts).2.consecutive_hits = 1 ∧
        (tr.create_track label bbox frame_id ts).2.stable = false := by
      constructor <;> rfl
    refine ⟨hbase, ?_⟩
    rw [applyOps_stable_iff]
    rw [hbase.2]
    simp

/-- Witness for C1: three consecutive updates after creation make the
track stable; two do not. -/
theorem track_stable_spec_witness :
    (Track.mk 1 "person" ⟨0, 0, 1, 1⟩ [] 2 0 false).mark_missed.stable = false ∧
    (((⟨30, 1, []⟩ : Tracker).create_track "person" ⟨0, 0, 1, 1⟩ 0 0).2.applyOps
      [.upd ⟨0, 0, 1, 1⟩ 1 33, .upd ⟨0, 0, 1, 1⟩ 2 66]).stable = true := by
  constructor
  · exact track_stable_spec.1 (Track.mk 1 "person" ⟨0, 0, 1, 1⟩ [] 2 0 false)
  · refine (track_stable_spec.2.2 (⟨30, 1, []⟩ : Tracker) "person" ⟨0, 0, 1, 1⟩
      0 0 [.upd ⟨0, 0, 1, 1⟩ 1 33, .upd ⟨0, 0, 1, 1⟩ 2 66]).2.mpr
      ⟨2, by norm_num, by simp, by decide⟩

/-! ### `src/modules/tracker/matching.py: match_detections_to_tracks`

The Python IoU matrix is a dict keyed by `(det_idx, track_id)` filled by
two nested loops (detection list order outer, track dict iteration order
inner); with distinct detection indices and distinct track ids the keys
are distinct and dict iteration order is insertion order, so the matrix
is embedded as the list produced in generation order.  CPython's `sorted`
is a stable sort; `sorted(pairs, key=lambda x: x[1], reverse=True)` is
embedded as the (unique) stable non-increasing insertion sort by the IoU
component. -/

/-- A scored candidate pair `((det_idx, track_id), iou)`. -/
abbrev ScoredPair := (ℕ × ℕ) × ℚ

/-- The candidate matrix: all pairs whose IoU meets the threshold, in
generation order. -/
def buildIoUMatrix (detections : List (ℕ × BBox)) (tracks : List (ℕ × BBox))
    (iou_threshold : ℚ) : List ScoredPair :=
  detections.flatMap (fun d =>
    tracks.filterMap (fun tr =>
      let iou := compute_iou d.2 tr.2
      if iou_threshold ≤ iou then some ((d.1, tr.1), iou) else none))

/-- Insert into a non-increasingly sorted list, before the first element
whose key is not larger — earlier-inserted elements stay in front of
equal keys, which is exactly the stability of Python's `sorted`. -/
def insertDesc (p : ScoredPair) : List ScoredPair → List ScoredPair
  | [] => [p]
  | q :: qs => if q.2 ≤ p.2 then p :: q :: qs else q :: insertDesc p qs

/-- Stable non-increasing sort by the IoU component, the semantics of
`sorted(iou_matrix.items(), key=lambda x: x[1], reverse=True)`. -/
def sortDesc (l : List ScoredPair) : List ScoredPair :=
  l.foldr insertDesc []

/-- The greedy loop: walk the sorted pairs, committing a pair iff
neither its detection nor its track is already matched.  Returns the
committed pairs with their IoU, in commit order (the insertion order of
the Python `matches` dict). -/
def greedyMatch : List ScoredPair → List ℕ → List ℕ → List ScoredPair
  | [], _, _ => []
  | p :: ps, matched_detections, matched_tracks =>
    if p.1.1 ∉ matched_detections ∧ p.1.2 ∉ matched_tracks then
      p :: greedyMatch ps (p.1.1 :: matched_detections) (p.1.2 :: matched_tracks)
    else
      greedyMatch ps matched_detections matched_tracks

/-- The committed pairs of one matching call, with their IoU scores. -/
def committedPairs (detections tracks : List (ℕ × BBox))
    (iou_threshold : ℚ) : List ScoredPair :=
  greedyMatch (sortDesc (buildIoUMatrix detections tracks iou_threshold)) [] []

/-- `matching.py: match_detections_to_tracks`, returning
`(matches, unmatched_detections, unmatched_tracks)`.  Python materializes
the unmatched sides from `set` differences whose iteration order is
interpreter-defined; the embedding keeps input order, one deterministic
representative of that set. -/
def match_detections_to_tracks (detections : List (ℕ × BBox))
    (tracks : List (ℕ × BBox)) (iou_threshold : ℚ) :
    List (ℕ × ℕ) × List ℕ × List ℕ :=
  if detections = [] ∨ tracks = [] then
    ([], detections.map (fun d => d.1), tracks.map (fun tr => tr.1))
  else
    let matched := (committedPairs detections tracks iou_threshold).map
      (fun r => r.1)
    let unmatched_detections := (detections.map (fun d => d.1)).filter
      (fun d => d ∉ matched.map (fun m => m.1))
    let unmatched_tracks := (tracks.map (fun tr => tr.1)).filter
      (fun tid => tid ∉ matched.map (fun m => m.2))
    (matched, unmatched_detections, unmatched_tracks)

lemma mem_insertDesc {x p : ScoredPair} {l : List ScoredPair} :
    x ∈ insertDesc p l ↔ x = p ∨ x ∈ l := by
  induction l with
  | nil => simp [insertDesc]
  | cons q qs ih =>
    simp only [insertDesc]
    split_ifs
    · simp
    · simp only [List.mem_cons, ih]
      tauto

lemma insertDesc_pairwise {p : ScoredPair} {l : List ScoredPair}
    (h : List.Pairwise (fun a b : ScoredPair => b.2 ≤ a.2) l) :
    List.Pairwise (fun a b : ScoredPair => b.2 ≤ a.2) (insertDesc p l) := by
  induction l with
  | nil => simp [insertDesc]
  | cons q qs ih =>
    rcases List.pairwise_cons.mp h with ⟨hq, hqs⟩
    simp only [insertDesc]
    split_ifs with hle
    · refine List.pairwise_cons.mpr ⟨?_, h⟩
      intro x hx
      rcases List.mem_cons.mp hx with rfl | hx
      · exact hle
      · exact le_trans (hq x hx) hle
    · refine List.pairwise_cons.mpr ⟨?_, ih hqs⟩
      intro x hx
      rcases mem_insertDesc.mp hx with rfl | hx
      · exact le_of_lt (lt_of_not_le hle)
      · exact hq x hx

/-- `sortDesc` output is non-increasing in the IoU component. -/
lemma sortDesc_pairwise (l : List ScoredPair) :
    List.Pairwise (fun a b : ScoredPair => b.2 ≤ a.2) (sortDesc l) := by
  induction l with
  | nil => simp [sortDesc]
  | cons p ps ih => exact insertDesc_pairwise ih

lemma insertDesc_perm (p : ScoredPair) (l : List ScoredPair) :
    List.Perm (insertDesc p l) (p :: l) := by
  induction l with
  | nil => rfl
  | cons q qs ih =>
    simp only [insertDesc]
    split_ifs
    · rfl
    · exact ((ih.cons q).trans (List.Perm.swap p q qs))

/-- `sortDesc` permutes its input. -/
lemma sortDesc_perm (l : List ScoredPair) : List.Perm (sortDesc l) l := by
  induction l with
  | nil => rfl
  | cons p ps ih => exact (insertDesc_perm p (sortDesc ps)).trans (ih.cons p)

lemma filter_insertDesc (p : ScoredPair) (l : List ScoredPair) (k : ℚ) :
    (insertDesc p l).filter (fun x => x.2 = k) =
      if p.2 = k then p :: l.filter (fun x => x.2 = k)
      else l.filter (fun x => x.2 = k) := by
  induction l with
  | nil =>
    simp only [insertDesc]
    split_ifs with h
    · simp [List.filter, h]
    · simp [List.filter, h]
  | cons q qs ih =>
    simp only [insertDesc]
    split_ifs with hle hpk hpk2
    · simp [List.filter_cons, hpk]
    · simp [List.filter_cons, hpk]
    · -- p.2 < q.2 and p.2 = k, hence q.2 ≠ k
      have hqk : ¬ (q.2 = k) := by
        intro h
        exact hle (le_of_eq (by rw [h, hpk2]))
      simp [List.filter_cons, ih, hpk2, hqk]
    · simp [List.filter_cons, ih, hpk2]

/-- Stability of `sortDesc`: the subsequence of any fixed IoU value is
untouched, i.e. equal-key elements stay in generation order. -/
lemma sortDesc_stable (l : List ScoredPair) (k : ℚ) :
    (sortDesc l).filter (fun x => x.2 = k) = l.filter (fun x => x.2 = k) := by
  induction l with
  | nil => rfl
  | cons p ps ih =>
    show (insertDesc p (sortDesc ps)).filter (fun x => x.2 = k) = _
    rw [filter_insertDesc, List.filter_cons]
    split_ifs with h1 h2 h2 <;> simp_all

/-- The greedy commit list is a subsequence of the scanned list. -/
lemma greedyMatch_sublist (L : List ScoredPair) (md mt : List ℕ) :
    (greedyMatch L md mt).Sublist L := by
  induction L generalizing md mt with
  | nil => simp [greedyMatch]
  | cons p ps ih =>
    simp only [greedyMatch]
    split_ifs
    · exact (ih _ _).cons₂ p
    · exact (ih _ _).cons p

/-- A committed pair's detection and track were not in the already-matched
sets. -/
lemma greedyMatch_avoid (L : List ScoredPair) (md mt : List ℕ) :
    ∀ r ∈ greedyMatch L md mt, r.1.1 ∉ md ∧ r.1.2 ∉ mt := by
  induction L generalizing md mt with
  | nil => simp [greedyMatch]
  | cons p ps ih =>
    simp only [greedyMatch]
    split_ifs with hc
    · intro r hr
      rcases List.mem_cons.mp hr with rfl | hr
      · exact hc
      · have h := ih _ _ r hr
        exact ⟨fun hm => h.1 (List.mem_cons_of_mem _ hm),
          fun hm => h.2 (List.mem_cons_of_mem _ hm)⟩
    · exact ih md mt

/-- No detection index repeats among committed pairs. -/
lemma greedyMatch_nodup_dets (L : List ScoredPair) (md mt : List ℕ) :
    ((greedyMatch L md mt).map (fun r => r.1.1)).Nodup := by
  induction L generalizing md mt with
  | nil => simp [greedyMatch]
  | cons p ps ih =>
    simp only [greedyMatch]
    split_ifs with hc
    · simp only [List.map_cons, List.nodup_cons]
      refine ⟨?_, ih _ _⟩
      intro hmem
      rcases List.mem_map.mp hmem with ⟨r, hr, hint⟩
      exact (greedyMatch_avoid _ _ _ r hr).1 (hint ▸ List.mem_cons_self _ _)
    · exact ih md mt

/-- No track id repeats among committed pairs. -/
lemma greedyMatch_nodup_tracks (L : List ScoredPair) (md mt : List ℕ) :
    ((greedyMatch L md mt).map (fun r => r.1.2)).Nodup := by
  induction L generalizing md mt with
  | nil => simp [greedyMatch]
  | cons p ps ih =>
    simp only [greedyMatch]
    split_ifs with hc
    · simp only [List.map_cons, List.nodup_cons]
      refine ⟨?_, ih _ _⟩
      intro hmem
      rcases List.mem_map.mp hmem with ⟨r, hr, hint⟩
      exact (greedyMatch_avoid _ _ _ r hr).2 (hint ▸ List.mem_cons_self _ _)
    · exact ih md mt

/-- A scanned pair that was not committed either conflicts with the
initial matched sets or with some committed pair that occurs earlier in
the scanned list. -/
lemma greedyMatch_reject (L : List ScoredPair) (md mt : List ℕ) :
    ∀ q ∈ L, q ∉ greedyMatch L md mt →
      q.1.1 ∈ md ∨ q.1.2 ∈ mt ∨
        ∃ r ∈ greedyMatch L md mt,
          (r.1.1 = q.1.1 ∨ r.1.2 = q.1.2) ∧ [r, q].Sublist L := by
  induction L generalizing md mt with
  | nil => simp
  | cons p ps ih =>
    intro q hq hnq
    simp only [greedyMatch] at hnq ⊢
    by_cases hc : p.1.1 ∉ md ∧ p.1.2 ∉ mt
    · -- p committed
      rw [if_pos hc] at hnq ⊢
      rcases List.mem_cons.mp hq with rfl | hq'
      · exact absurd (List.mem_cons_self _ _) hnq
      · have hnq' : q ∉ greedyMatch ps (p.1.1 :: md) (p.1.2 :: mt) := by
          intro hmem
          exact hnq (List.mem_cons_of_mem _ hmem)
        rcases ih _ _ q hq' hnq' with h | h | ⟨r, hr, hconf, hsub⟩
        · rcases List.mem_cons.mp h with h1 | h1
          · exact Or.inr (Or.inr ⟨p, List.mem_cons_self _ _, Or.inl h1.symm,
              (List.singleton_sublist.mpr hq').cons₂ p⟩)
          · exact Or.inl h1
        · rcases List.mem_cons.mp h with h1 | h1
          · exact Or.inr (Or.inr ⟨p, List.mem_cons_self _ _, Or.inr h1.symm,
              (List.singleton_sublist.mpr hq').cons₂ p⟩)
          · exact Or.inr (Or.inl h1)
        · exact Or.inr (Or.inr ⟨r, List.mem_cons_of_mem _ hr, hconf, hsub.cons p⟩)
    · -- p rejected against the current sets
      rw [if_neg hc] at hnq ⊢
      rcases List.mem_cons.mp hq with rfl | hq'
      · rcases not_and_or.mp hc with h | h
        · exact Or.inl (not_not.mp h)
        · exact Or.inr (Or.inl (not_not.mp h))
      · rcases ih md mt q hq' hnq with h | h | ⟨r, hr, hconf, hsub⟩
        · exact Or.inl h
        · exact Or.inr (Or.inl h)
        · exact Or.inr (Or.inr ⟨r, hr, hconf, hsub.cons p⟩)

/-- Every matrix entry meets the threshold and decodes to a detection
bbox and a track bbox whose IoU it is. -/
lemma mem_buildIoUMatrix {dets trks : List (ℕ × BBox)} {thr : ℚ}
    {q : ScoredPair} (hq : q ∈ buildIoUMatrix dets trks thr) :
    thr ≤ q.2 ∧ ∃ db tb, (q.1.1, db) ∈ dets ∧ (q.1.2, tb) ∈ trks ∧
      compute_iou db tb = q.2 := by
  rcases List.mem_flatMap.mp hq with ⟨d, hd, hmem⟩
  rcases List.mem_filterMap.mp hmem with ⟨tr, htr, heq⟩
  by_cases hth : thr ≤ compute_iou d.2 tr.2
  · rw [if_pos hth] at heq
    cases heq
    exact ⟨hth, d.2, tr.2, by simpa using hd, by simpa using htr, rfl⟩
  · rw [if_neg hth] at heq
    cases heq

lemma buildIoUMatrix_nil {dets trks : List (ℕ × BBox)} {thr : ℚ}
    (h : dets = [] ∨ trks = []) : buildIoUMatrix dets trks thr = [] := by
  rcases h with rfl | rfl
  · rfl
  · simp [buildIoUMatrix]

/-- C2: the committed assignment uses each detection index and each track
id at most once; every committed pair is a generated candidate whose IoU
meets the threshold; pairs are committed in non-increasing IoU order (the
commit sequence is a subsequence of the stable descending sort of the
candidate list); and every candidate pair left uncommitted conflicts with
a committed pair of strictly larger IoU, or of equal IoU generated
earlier (ties broken by generation order: detection list order outer,
track iteration order inner).  Determinism for a fixed input ordering is
inherent, the embedding being a pure function.  The `Nodup` hypotheses
say detection indices and track ids are distinct, as `enumerate` and the
track dict guarantee in the caller. -/
theorem match_detections_to_tracks_spec (dets trks : List (ℕ × BBox))
    (thr : ℚ) (hd : (dets.map (fun d => d.1)).Nodup)
    (ht : (trks.map (fun tr => tr.1)).Nodup) :
    ((match_detections_to_tracks dets trks thr).1 =
      (committedPairs dets trks thr).map (fun r => r.1)) ∧
    ((committedPairs dets trks thr).map (fun r => r.1.1)).Nodup ∧
    ((committedPairs dets trks thr).map (fun r => r.1.2)).Nodup ∧
    (∀ r ∈ committedPairs dets trks thr,
      r ∈ buildIoUMatrix dets trks thr ∧ thr ≤ r.2 ∧
      ∃ db tb, (r.1.1, db) ∈ dets ∧ (r.1.2, tb) ∈ trks ∧
        compute_iou db tb = r.2) ∧
    (committedPairs dets trks thr).Sublist
      (sortDesc (buildIoUMatrix dets trks thr)) ∧
    List.Pairwise (fun a b : ScoredPair => b.2 ≤ a.2)
      (committedPairs dets trks thr) ∧
    (∀ q ∈ buildIoUMatrix dets trks thr, q ∉ committedPairs dets trks thr →
      ∃ r ∈ committedPairs dets trks thr,
        (r.1.1 = q.1.1 ∨ r.1.2 = q.1.2) ∧
        (q.2 < r.2 ∨ (r.2 = q.2 ∧
          [r, q].Sublist (buildIoUMatrix dets trks thr)))) := by
  have hsub : (committedPairs dets trks thr).Sublist
      (sortDesc (buildIoUMatrix dets trks thr)) := greedyMatch_sublist _ _ _
  refine ⟨?_, greedyMatch_nodup_dets _ _ _, greedyMatch_nodup_tracks _ _ _,
    ?_, hsub, (sortDesc_pairwise _).sublist hsub, ?_⟩
  · unfold match_detections_to_tracks
    split_ifs with h
    · rw [show committedPairs dets trks thr = [] from by
        rw [committedPairs, buildIoUMatrix_nil h]; rfl]
      rfl
    · rfl
  · intro r hr
    have hmat : r ∈ buildIoUMatrix dets trks thr :=
      (sortDesc_perm _).mem_iff.mp (hsub.subset hr)
    rcases mem_buildIoUMatrix hmat with ⟨h1, h2⟩
    exact ⟨hmat, h1, h2⟩
  · intro q hq hnq
    unfold committedPairs at hnq ⊢
    have hq' : q ∈ sortDesc (buildIoUMatrix dets trks thr) :=
      (sortDesc_perm _).mem_iff.mpr hq
    rcases greedyMatch_reject _ [] [] q hq' hnq with h | h | ⟨r, hr, hconf, hsubrq⟩
    · simp at h
    · simp at h
    · refine ⟨r, hr, hconf, ?_⟩
      have hge : q.2 ≤ r.2 := by
        have hp : List.Pairwise (fun a b : ScoredPair => b.2 ≤ a.2) [r, q] :=
          (sortDesc_pairwise _).sublist hsubrq
        exact (List.pairwise_cons.mp hp).1 q (by simp)
      rcases lt_or_eq_of_le hge with hlt | heq
      · exact Or.inl hlt
      · refine Or.inr ⟨heq.symm, ?_⟩
        have hk : [r, q] = [r, q].filter (fun x => x.2 = q.2) := by
          simp [List.filter_cons, heq.symm]
        have s1 := hsubrq.filter (fun x => x.2 = q.2)
        rw [← hk, sortDesc_stable] at s1
        exact s1.trans (List.filter_sublist _)

/-- Witness for C2: a single detection over a single identical track at
the default threshold commits the unique pair. -/
theorem match_detections_to_tracks_spec_witness :
    (match_detections_to_tracks [(0, ⟨0, 0, 1, 1⟩)] [(5, ⟨0, 0, 1, 1⟩)]
      (3/10)).1 = [(0, 5)] ∧
    ((committedPairs [(0, ⟨0, 0, 1, 1⟩)] [(5, ⟨0, 0, 1, 1⟩)] (3/10)).map
      (fun r => r.1.1)).Nodup := by
  have h := match_detections_to_tracks_spec [(0, ⟨0, 0, 1, 1⟩)]
    [(5, ⟨0, 0, 1, 1⟩)] (3/10) (by simp) (by simp)
  refine ⟨?_, h.2.1⟩
  rw [h.1]
  have hiou : compute_iou ⟨0, 0, 1, 1⟩ ⟨0, 0, 1, 1⟩ = 1 := by
    norm_num [compute_iou]
  have hmat : buildIoUMatrix [(0, ⟨0, 0, 1, 1⟩)] [(5, ⟨0, 0, 1, 1⟩)] (3/10) =
      [((0, 5), 1)] := by
    simp only [buildIoUMatrix, List.flatMap_cons, List.flatMap_nil,
      List.filterMap_cons, List.filterMap_nil, List.append_nil, hiou]
    rw [if_pos (by norm_num)]
  rw [committedPairs, hmat]
  rfl

/-! ### `src/modules/tracker/module.py: TrackerModule._process_detections`

One loop iteration for one `DetectionResult` event, embedded as a pure
state transformer.  Python raises `KeyError` on `update_track` of an
unknown id and indexes `event.objects[det_idx]`; in the cycle both are
always in range (matched ids come from the current track table, detection
indices from `enumerate`), and the embedding returns placeholder values on
the unreachable out-of-range branches. -/

/-- One detection of a `DetectionResult` (confidence plays no role in the
tracker path). -/
structure Detection where
  label : String
  bbox : BBox
deriving DecidableEq, Repr

/-- Placeholder for the unreachable `KeyError` branch. -/
def dummyTrack : Track := ⟨0, "", ⟨0, 0, 0, 0⟩, [], 0, 0, false⟩

/-- Placeholder for the unreachable out-of-range detection index. -/
def dummyDetection : Detection := ⟨"", ⟨0, 0, 0, 0⟩⟩

/-- `tracker.py: Tracker.get_track`. -/
def Tracker.get_track (tr : Tracker) (track_id : ℕ) : Option Track :=
  (tr.tracks.find? (fun kt => kt.1 = track_id)).map (fun kt => kt.2)

/-- `tracker.py: Tracker.update_track`: mutate the stored track in place
(entry re-bound at its position) and return the updated track. -/
def Tracker.update_track (tr : Tracker) (track_id : ℕ) (bbox : BBox)
    (frame_id : ℕ) (timestamp_ms : ℤ) : Tracker × Track :=
  let t' := ((tr.get_track track_id).map
    (fun t => t.update bbox frame_id timestamp_ms)).getD dummyTrack
  ({ tr with
      tracks := tr.tracks.map (fun kt =>
        if kt.1 = track_id then (kt.1, kt.2.update bbox frame_id timestamp_ms)
        else kt) },
    t')

/-- `tracker.py: Tracker.mark_missed_tracks`. -/
def Tracker.mark_missed_tracks (tr : Tracker) (matched_track_ids : List ℕ) :
    Tracker :=
  { tr with
    tracks := tr.tracks.map (fun kt =>
      if kt.1 ∉ matched_track_ids then (kt.1, kt.2.mark_missed) else kt) }

/-- `tracker.py: Tracker.evict_old_tracks`: remove tracks with
`frames_since_update > max_age`; return the surviving tracker and the
evicted ids. -/
def Tracker.evict_old_tracks (tr : Tracker) : Tracker × List ℕ :=
  ({ tr with
      tracks := tr.tracks.filter (fun kt =>
        ¬ tr.max_age < kt.2.frames_since_update) },
    (tr.tracks.filter (fun kt => tr.max_age < kt.2.frames_since_update)).map
      (fun kt => kt.1))

/-- `tracker.py: Tracker.get_active_tracks`. -/
def Tracker.get_active_tracks (tr : Tracker) : List (ℕ × BBox) :=
  tr.tracks.map (fun kt => (kt.1, kt.2.bbox))

/-- The `TrackUpdate` event of `contracts/schemas.py` as published by
`TrackerModule._publish_track_update`. -/
structure TrackUpdate where
  track_id : ℕ
  frame_id : ℕ
  timestamp_ms : ℤ
  label : String
  bbox : BBox
  stable : Bool
  velocity : Option (ℚ × ℚ)
deriving DecidableEq, Repr

/-- `module.py: TrackerModule._publish_track_update` payload. -/
def mkTrackUpdate (t : Track) (frame_id : ℕ) (timestamp_ms : ℤ) :
    TrackUpdate :=
  { track_id := t.track_id
    frame_id := frame_id
    timestamp_ms := timestamp_ms
    label := t.label
    bbox := t.bbox
    stable := t.stable
    velocity := t.compute_velocity }

/-- The "update matched tracks" loop: for each `(det_idx, track_id)` in
matches order, update the track with the detection's bbox and publish a
`TrackUpdate` for the returned track. -/
def updateMatchedPhase (st : Tracker × List TrackUpdate)
    (objects : List Detection) (matched : List (ℕ × ℕ)) (frame_id : ℕ)
    (timestamp_ms : ℤ) : Tracker × List TrackUpdate :=
  matched.foldl
    (fun acc m =>
      let r := acc.1.update_track m.2 (objects.getD m.1 dummyDetection).bbox
        frame_id timestamp_ms
      (r.1, acc.2 ++ [mkTrackUpdate r.2 frame_id timestamp_ms]))
    st

/-- The "create new tracks for unmatched detections" loop, publishing a
`TrackUpdate` for each created track. -/
def createPhase (st : Tracker × List TrackUpdate) (objects : List Detection)
    (unmatched : List ℕ) (frame_id : ℕ) (timestamp_ms : ℤ) :
    Tracker × List TrackUpdate :=
  unmatched.foldl
    (fun acc d =>
      let det := objects.getD d dummyDetection
      let r := acc.1.create_track det.label det.bbox frame_id timestamp_ms
      (r.1, acc.2 ++ [mkTrackUpdate r.2 frame_id timestamp_ms]))
    st

/-- One full iteration of `TrackerModule._process_detections` for one
`DetectionResult` of `objects`: enumerate detections, match against
active tracks, update matched tracks, create tracks for unmatched
detections, mark missed tracks, evict old tracks.  Returns the new
tracker, the published `TrackUpdate`s in publish order, and the evicted
ids. -/
def processCycle (tracker : Tracker) (objects : List Detection)
    (frame_id : ℕ) (timestamp_ms : ℤ) (iou_threshold : ℚ) :
    Tracker × List TrackUpdate × List ℕ :=
  let detections := objects.enum.map (fun ia => (ia.1, ia.2.bbox))
  let active_tracks := tracker.get_active_tracks
  let res := match_detections_to_tracks detections active_tracks iou_threshold
  let matched_track_ids := res.1.map (fun m => m.2)
  let step1 := updateMatchedPhase (tracker, []) objects res.1 frame_id
    timestamp_ms
  let step2 := createPhase step1 objects res.2.1 frame_id timestamp_ms
  let tr3 := step2.1.mark_missed_tracks matched_track_ids
  let ev := tr3.evict_old_tracks
  (ev.1, step2.2, ev.2)

lemma update_track_tracks (tr : Tracker) (id : ℕ) (bb : BBox) (f : ℕ)
    (ts : ℤ) :
    (tr.update_track id bb f ts).1.tracks = tr.tracks.map (fun kt =>
      if kt.1 = id then (kt.1, kt.2.update bb f ts) else kt) := rfl

lemma updateMatchedPhase_cons (st : Tracker × List TrackUpdate)
    (objects : List Detection) (mm : ℕ × ℕ) (rest : List (ℕ × ℕ)) (f : ℕ)
    (ts : ℤ) :
    updateMatchedPhase st objects (mm :: rest) f ts =
      updateMatchedPhase
        ((st.1.update_track mm.2 ((objects.getD mm.1 dummyDetection).bbox) f
            ts).1,
          st.2 ++ [mkTrackUpdate
            (st.1.update_track mm.2 ((objects.getD mm.1 dummyDetection).bbox) f
              ts).2 f ts])
        objects rest f ts := rfl

/-- The matched-update loop transforms the track table pointwise by key:
keys, order, `next_track_id`, `max_age` unchanged; unmatched keys keep
their value; matched keys end with `frames_since_update = 0`; values keep
their `track_id`. -/
lemma updateMatchedPhase_tracks (objects : List Detection) (f : ℕ) (ts : ℤ) :
    ∀ (matched : List (ℕ × ℕ)) (tr : Tracker) (us : List TrackUpdate),
      ∃ Φ : ℕ → Track → Track,
        (updateMatchedPhase (tr, us) objects matched f ts).1.tracks =
          tr.tracks.map (fun kt => (kt.1, Φ kt.1 kt.2)) ∧
        (updateMatchedPhase (tr, us) objects matched f ts).1.next_track_id =
          tr.next_track_id ∧
        (updateMatchedPhase (tr, us) objects matched f ts).1.max_age =
          tr.max_age ∧
        (∀ k t, k ∉ matched.map (fun m => m.2) → Φ k t = t) ∧
        (∀ k t, k ∈ matched.map (fun m => m.2) →
          (Φ k t).frames_since_update = 0) ∧
        (∀ k t, (Φ k t).track_id = t.track_id) := by
  intro matched
  induction matched with
  | nil =>
    intro tr us
    refine ⟨fun _ t => t, ?_, rfl, rfl, fun _ _ _ => rfl, by simp,
      fun _ _ => rfl⟩
    simp [updateMatchedPhase]
  | cons mm rest ih =>
    intro tr us
    rw [updateMatchedPhase_cons]
    obtain ⟨Φr, h1, h2, h3, h4, h5, h6⟩ := ih
      (tr.update_track mm.2 ((objects.getD mm.1 dummyDetection).bbox) f ts).1
      (us ++ [mkTrackUpdate
        (tr.update_track mm.2 ((objects.getD mm.1 dummyDetection).bbox) f
          ts).2 f ts])
    refine ⟨fun k t => Φr k
        (if k = mm.2 then t.update (objects.getD mm.1 dummyDetection).bbox f ts
         else t), ?_, ?_, ?_, ?_, ?_, ?_⟩
    · rw [h1, update_track_tracks, List.map_map]
      refine List.map_congr_left ?_
      intro kt _
      by_cases h : kt.1 = mm.2 <;> simp [Function.comp, h]
    · rw [h2]; rfl
    · rw [h3]; rfl
    · intro k t hk
      simp only [List.map_cons, List.mem_cons, not_or] at hk
      show Φr k (if k = mm.2
        then t.update (objects.getD mm.1 dummyDetection).bbox f ts else t) = t
      rw [if_neg hk.1]
      exact h4 k t hk.2
    · intro k t hk
      simp only [List.map_cons, List.mem_cons] at hk
      show (Φr k (if k = mm.2
        then t.update (objects.getD mm.1 dummyDetection).bbox f ts
        else t)).frames_since_update = 0
      by_cases hmem : k ∈ rest.map (fun m => m.2)
      · exact h5 k _ hmem
      · rcases hk with hk | hk
        · rw [if_pos hk, h4 k _ hmem]
          rfl
        · exact absurd hk hmem
    · intro k t
      show (Φr k (if k = mm.2
        then t.update (objects.getD mm.1 dummyDetection).bbox f ts
        else t)).track_id = t.track_id
      rw [h6]
      by_cases h : k = mm.2
      · rw [if_pos h]
        rfl
      · rw [if_neg h]

lemma track_update_track_id (t : Track) (bb : BBox) (f : ℕ) (ts : ℤ) :
    (t.update bb f ts).track_id = t.track_id := rfl

/-- The track returned by `update_track` carries the requested id, given
a well-keyed table containing the id. -/
lemma update_track_ret_id (tr : Tracker) (id : ℕ) (bb : BBox) (f : ℕ)
    (ts : ℤ) (hid : ∀ kt ∈ tr.tracks, kt.2.track_id = kt.1)
    (hmem : id ∈ tr.tracks.map (fun kt => kt.1)) :
    ((tr.update_track id bb f ts).2).track_id = id := by
  obtain ⟨kt, hkt, hp⟩ := List.mem_map.mp hmem
  have hsome : (tr.tracks.find? (fun kt => kt.1 = id)).isSome :=
    List.find?_isSome.mpr ⟨kt, hkt, by simp [hp]⟩
  obtain ⟨kt', hfind⟩ := Option.isSome_iff_exists.mp hsome
  have hkt' : kt' ∈ tr.tracks := List.mem_of_find?_eq_some hfind
  have hpk : kt'.1 = id := by simpa using List.find?_some hfind
  show ((((tr.tracks.find? (fun kt => kt.1 = id)).map
    (fun kt => kt.2)).map (fun t => t.update bb f ts)).getD dummyTrack).track_id = id
  rw [hfind]
  simp only [Option.map_some', Option.getD_some]
  rw [track_update_track_id, hid kt' hkt', hpk]

/-- Per-step invariant: `update_track` keeps keys, the key list, and the
track-id-matches-key property. -/
lemma update_track_invariants (tr : Tracker) (id : ℕ) (bb : BBox) (f : ℕ)
    (ts : ℤ) :
    (tr.update_track id bb f ts).1.tracks.map (fun kt => kt.1) =
      tr.tracks.map (fun kt => kt.1) ∧
    ((∀ kt ∈ tr.tracks, kt.2.track_id = kt.1) →
      ∀ kt ∈ (tr.update_track id bb f ts).1.tracks, kt.2.track_id = kt.1) := by
  constructor
  · rw [update_track_tracks, List.map_map]
    refine List.map_congr_left ?_
    intro kt _
    by_cases h : kt.1 = id <;> simp [Function.comp, h]
  · intro hid kt hkt
    rw [update_track_tracks] at hkt
    rcases List.mem_map.mp hkt with ⟨kt0, hkt0, heq⟩
    by_cases h : kt0.1 = id
    · rw [if_pos h] at heq
      rw [← heq]
      exact hid kt0 hkt0
    · rw [if_neg h] at heq
      rw [← heq]
      exact hid kt0 hkt0

/-- Published updates of the matched-update loop: one per matched pair in
order, carrying the matched track id and the cycle's frame id. -/
lemma updateMatchedPhase_pub (objects : List Detection) (f : ℕ) (ts : ℤ) :
    ∀ (matched : List (ℕ × ℕ)) (tr : Tracker) (us : List TrackUpdate),
      (∀ kt ∈ tr.tracks, kt.2.track_id = kt.1) →
      (∀ mm ∈ matched, mm.2 ∈ tr.tracks.map (fun kt => kt.1)) →
      ((updateMatchedPhase (tr, us) objects matched f ts).2.map
          (fun o => o.track_id) =
        us.map (fun o => o.track_id) ++ matched.map (fun m => m.2)) ∧
      (∀ o ∈ (updateMatchedPhase (tr, us) objects matched f ts).2,
        o ∈ us ∨ o.frame_id = f) := by
  intro matched
  induction matched with
  | nil =>
    intro tr us _ _
    refine ⟨by simp [updateMatchedPhase], ?_⟩
    intro o ho
    exact Or.inl (by simpa [updateMatchedPhase] using ho)
  | cons mm rest ih =>
    intro tr us hid hmem
    rw [updateMatchedPhase_cons]
    have hid1 := (update_track_invariants tr mm.2
      ((objects.getD mm.1 dummyDetection).bbox) f ts).2 hid
    have hkeys := (update_track_invariants tr mm.2
      ((objects.getD mm.1 dummyDetection).bbox) f ts).1
    have hmem1 : ∀ m ∈ rest, m.2 ∈
        (tr.update_track mm.2 ((objects.getD mm.1 dummyDetection).bbox) f
          ts).1.tracks.map (fun kt => kt.1) := by
      intro m hm
      rw [hkeys]
      exact hmem m (List.mem_cons_of_mem _ hm)
    obtain ⟨hmap, hframe⟩ := ih _ _ hid1 hmem1
    have hretid := update_track_ret_id tr mm.2
      ((objects.getD mm.1 dummyDetection).bbox) f ts hid
      (hmem mm (List.mem_cons_self _ _))
    constructor
    · rw [hmap, List.map_append, List.append_assoc]
      congr 1
      simp only [List.map_cons, List.map_nil, List.singleton_append]
      exact congrArg (fun x => x :: List.map (fun m => m.2) rest) hretid
    · intro o ho
      rcases hframe o ho with h | h
      · rcases List.mem_append.mp h with h' | h'
        · exact Or.inl h'
        · simp only [List.mem_singleton] at h'
          subst h'
          exact Or.inr rfl
      · exact Or.inr h

lemma createPhase_cons (st : Tracker × List TrackUpdate)
    (objects : List Detection) (d : ℕ) (rest : List ℕ) (f : ℕ) (ts : ℤ) :
    createPhase st objects (d :: rest) f ts =
      createPhase
        ((st.1.create_track (objects.getD d dummyDetection).label
            (objects.getD d dummyDetection).bbox f ts).1,
          st.2 ++ [mkTrackUpdate
            (st.1.create_track (objects.getD d dummyDetection).label
              (objects.getD d dummyDetection).bbox f ts).2 f ts])
        objects rest f ts := rfl

/-- The creation loop appends one fresh-id entry per unmatched detection:
ids are consecutive from `next_track_id`, each created value has hits 1,
frames 0, not stable; one `TrackUpdate` is published per creation with
the fresh id and the cycle's frame id. -/
lemma createPhase_spec (objects : List Detection) (f : ℕ) (ts : ℤ) :
    ∀ (u : List ℕ) (tr : Tracker) (us : List TrackUpdate),
      ∃ news : List (ℕ × Track),
        (createPhase (tr, us) objects u f ts).1.tracks = tr.tracks ++ news ∧
        (createPhase (tr, us) objects u f ts).1.next_track_id =
          tr.next_track_id + u.length ∧
        (createPhase (tr, us) objects u f ts).1.max_age = tr.max_age ∧
        news.map (fun kt => kt.1) = List.range' tr.next_track_id u.length ∧
        (∀ kt ∈ news, kt.2.track_id = kt.1 ∧ kt.2.stable = false ∧
          kt.2.consecutive_hits = 1 ∧ kt.2.frames_since_update = 0) ∧
        ((createPhase (tr, us) objects u f ts).2.map (fun o => o.track_id) =
          us.map (fun o => o.track_id) ++
            List.range' tr.next_track_id u.length) ∧
        (∀ o ∈ (createPhase (tr, us) objects u f ts).2,
          o ∈ us ∨ o.frame_id = f) := by
  intro u
  induction u with
  | nil =>
    intro tr us
    refine ⟨[], by simp [createPhase], by simp [createPhase],
      by simp [createPhase], by simp, by simp, by simp [createPhase], ?_⟩
    intro o ho
    exact Or.inl (by simpa [createPhase] using ho)
  | cons d rest ih =>
    intro tr us
    rw [createPhase_cons]
    dsimp only
    obtain ⟨news', k1, k2, k3, k4, k5, k6, k7⟩ := ih
      (tr.create_track (objects.getD d dummyDetection).label
        (objects.getD d dummyDetection).bbox f ts).1
      (us ++ [mkTrackUpdate
        (tr.create_track (objects.getD d dummyDetection).label
          (objects.getD d dummyDetection).bbox f ts).2 f ts])
    refine ⟨(tr.next_track_id,
      (tr.create_track (objects.getD d dummyDetection).label
        (objects.getD d dummyDetection).bbox f ts).2) :: news',
      ?_, ?_, ?_, ?_, ?_, ?_, ?_⟩
    · rw [k1]
      have hsplit : (tr.create_track (objects.getD d dummyDetection).label
          (objects.getD d dummyDetection).bbox f ts).1.tracks =
          tr.tracks ++ [(tr.next_track_id,
            (tr.create_track (objects.getD d dummyDetection).label
              (objects.getD d dummyDetection).bbox f ts).2)] := rfl
      rw [hsplit, List.append_assoc, List.singleton_append]
    · rw [k2]
      show tr.next_track_id + 1 + rest.length =
        tr.next_track_id + (rest.length + 1)
      omega
    · rw [k3]
      rfl
    · show tr.next_track_id :: news'.map (fun kt => kt.1) = _
      rw [k4]
      simp only [List.length_cons, List.range'_succ]
      rfl
    · intro kt hkt
      rcases List.mem_cons.mp hkt with rfl | h
      · exact ⟨rfl, rfl, rfl, rfl⟩
      · exact k5 _ h
    · rw [k6, List.map_append, List.append_assoc]
      simp only [List.length_cons, List.range'_succ]
      congr 1
    · intro o ho
      rcases k7 o ho with h | h
      · rcases List.mem_append.mp h with h' | h'
        · exact Or.inl h'
        · simp only [List.mem_singleton] at h'
          subst h'
          exact Or.inr rfl
      · exact Or.inr h

lemma mark_missed_tracks_tracks (tr : Tracker) (ids : List ℕ) :
    (tr.mark_missed_tracks ids).tracks = tr.tracks.map (fun kt =>
      if kt.1 ∉ ids then (kt.1, kt.2.mark_missed) else kt) := rfl

lemma evict_old_tracks_tracks (tr : Tracker) :
    (tr.evict_old_tracks).1.tracks = tr.tracks.filter (fun kt =>
      ¬ tr.max_age < kt.2.frames_since_update) := rfl

/-- In an association list with distinct keys, a key determines its
value. -/
lemma assoc_value_eq {l : List (ℕ × Track)}
    (h : (l.map (fun kt => kt.1)).Nodup) :
    ∀ {k : ℕ} {a b : Track}, (k, a) ∈ l → (k, b) ∈ l → a = b := by
  induction l with
  | nil =>
    intro k a b ha
    simp at ha
  | cons kt rest ih =>
    intro k a b ha hb
    simp only [List.map_cons, List.nodup_cons] at h
    rcases List.mem_cons.mp ha with ha1 | ha1 <;>
      rcases List.mem_cons.mp hb with hb1 | hb1
    · rw [← ha1] at hb1
      exact congrArg Prod.snd hb1.symm
    · exfalso
      refine h.1 ?_
      rw [← ha1]
      exact List.mem_map.mpr ⟨(k, b), hb1, rfl⟩
    · exfalso
      refine h.1 ?_
      rw [← hb1]
      exact List.mem_map.mpr ⟨(k, a), ha1, rfl⟩
    · exact ih h.2 ha1 hb1

/-- Every matched track id is a key of the supplied track table. -/
lemma matched_mem_tracks {dets trks : List (ℕ × BBox)} {thr : ℚ} :
    ∀ m ∈ (match_detections_to_tracks dets trks thr).1,
      ∃ tb, (m.2, tb) ∈ trks := by
  intro m hm
  unfold match_detections_to_tracks at hm
  split_ifs at hm with h
  · simp at hm
  · dsimp only at hm
    rcases List.mem_map.mp hm with ⟨r, hr, rfl⟩
    have hmat : r ∈ buildIoUMatrix dets trks thr :=
      (sortDesc_perm _).mem_iff.mp ((greedyMatch_sublist _ _ _).subset hr)
    rcases mem_buildIoUMatrix hmat with ⟨_, db, tb, _, htb, _⟩
    exact ⟨tb, htb⟩

/-- Matched track ids are pairwise distinct. -/
lemma matched_ids_nodup {dets trks : List (ℕ × BBox)} {thr : ℚ} :
    ((match_detections_to_tracks dets trks thr).1.map
      (fun m => m.2)).Nodup := by
  unfold match_detections_to_tracks
  split_ifs with h
  · simp
  · dsimp only
    rw [List.map_map]
    exact greedyMatch_nodup_tracks _ _ _

/-- The enumerated `(det_idx, bbox)` list the cycle feeds to matching. -/
def cycleDetections (objects : List Detection) : List (ℕ × BBox) :=
  objects.enum.map (fun ia => (ia.1, ia.2.bbox))

/-- The matching result of one cycle. -/
def cycleMatch (tracker : Tracker) (objects : List Detection) (thr : ℚ) :
    List (ℕ × ℕ) × List ℕ × List ℕ :=
  match_detections_to_tracks (cycleDetections objects)
    tracker.get_active_tracks thr

lemma processCycle_eq (tracker : Tracker) (objects : List Detection)
    (f : ℕ) (ts : ℤ) (thr : ℚ) :
    processCycle tracker objects f ts thr =
      (((createPhase (updateMatchedPhase (tracker, []) objects
            (cycleMatch tracker objects thr).1 f ts) objects
            (cycleMatch tracker objects thr).2.1 f ts).1.mark_missed_tracks
          ((cycleMatch tracker objects thr).1.map
            (fun m => m.2))).evict_old_tracks.1,
        (createPhase (updateMatchedPhase (tracker, []) objects
          (cycleMatch tracker objects thr).1 f ts) objects
          (cycleMatch tracker objects thr).2.1 f ts).2,
        ((createPhase (updateMatchedPhase (tracker, []) objects
            (cycleMatch tracker objects thr).1 f ts) objects
            (cycleMatch tracker objects thr).2.1 f ts).1.mark_missed_tracks
          ((cycleMatch tracker objects thr).1.map
            (fun m => m.2))).evict_old_tracks.2) := rfl

/-- Matched track ids are keys of the cycle's input track table. -/
lemma mids_mem_keys (tracker : Tracker) (objects : List Detection)
    (thr : ℚ) :
    ∀ i ∈ (cycleMatch tracker objects thr).1.map (fun m => m.2),
      i ∈ tracker.tracks.map (fun kt => kt.1) := by
  intro i hi
  rcases List.mem_map.mp hi with ⟨m, hm, rfl⟩
  rcases matched_mem_tracks m hm with ⟨tb, htb⟩
  rcases List.mem_map.mp htb with ⟨kt, hkt, heq⟩
  exact List.mem_map.mpr ⟨kt, hkt, congrArg Prod.fst heq⟩

/-- Master description of one processed cycle: the final track table is
the old table transformed pointwise by a matched-update function `Φ`,
extended by the created entries, all of it run through mark-missed and
eviction; the published updates carry the matched ids followed by the
fresh ids, all with the cycle's frame id. -/
lemma processCycle_master (tracker : Tracker) (objects : List Detection)
    (f : ℕ) (ts : ℤ) (thr : ℚ)
    (hid : ∀ kt ∈ tracker.tracks, kt.2.track_id = kt.1) :
    ∃ (Φ : ℕ → Track → Track) (news : List (ℕ × Track)),
      ((processCycle tracker objects f ts thr).1.tracks =
        ((tracker.tracks.map (fun kt => (kt.1, Φ kt.1 kt.2)) ++ news).map
          (fun kt =>
            if kt.1 ∉ (cycleMatch tracker objects thr).1.map (fun m => m.2)
            then (kt.1, kt.2.mark_missed) else kt)).filter
          (fun kt => ¬ tracker.max_age < kt.2.frames_since_update)) ∧
      (∀ k t, k ∉ (cycleMatch tracker objects thr).1.map (fun m => m.2) →
        Φ k t = t) ∧
      (∀ k t, k ∈ (cycleMatch tracker objects thr).1.map (fun m => m.2) →
        (Φ k t).frames_since_update = 0) ∧
      (∀ k t, (Φ k t).track_id = t.track_id) ∧
      (news.map (fun kt => kt.1) = List.range' tracker.next_track_id
        (cycleMatch tracker objects thr).2.1.length) ∧
      (∀ kt ∈ news, kt.2.track_id = kt.1 ∧ kt.2.stable = false ∧
        kt.2.consecutive_hits = 1 ∧ kt.2.frames_since_update = 0) ∧
      ((processCycle tracker objects f ts thr).1.next_track_id =
        tracker.next_track_id +
          (cycleMatch tracker objects thr).2.1.length) ∧
      ((processCycle tracker objects f ts thr).2.1.map (fun o => o.track_id) =
        (cycleMatch tracker objects thr).1.map (fun m => m.2) ++
          List.range' tracker.next_track_id
            (cycleMatch tracker objects thr).2.1.length) ∧
      (∀ o ∈ (processCycle tracker objects f ts thr).2.1,
        o.frame_id = f) := by
  obtain ⟨Φ, h1, h2, h3, h4, h5, h6⟩ := updateMatchedPhase_tracks objects f ts
    (cycleMatch tracker objects thr).1 tracker []
  obtain ⟨hpub1, hpubf1⟩ := updateMatchedPhase_pub objects f ts
    (cycleMatch tracker objects thr).1 tracker [] hid
    (fun mm hmm => mids_mem_keys tracker objects thr mm.2
      (List.mem_map.mpr ⟨mm, hmm, rfl⟩))
  obtain ⟨news, k1, k2, k3, k4, k5, k6, k7⟩ := createPhase_spec objects f ts
    (cycleMatch tracker objects thr).2.1
    (updateMatchedPhase (tracker, []) objects
      (cycleMatch tracker objects thr).1 f ts).1
    (updateMatchedPhase (tracker, []) objects
      (cycleMatch tracker objects thr).1 f ts).2
  have heta : ((updateMatchedPhase (tracker, []) objects
      (cycleMatch tracker objects thr).1 f ts).1,
      (updateMatchedPhase (tracker, []) objects
        (cycleMatch tracker objects thr).1 f ts).2) =
      updateMatchedPhase (tracker, []) objects
        (cycleMatch tracker objects thr).1 f ts := rfl
  rw [heta] at k1 k2 k3 k6 k7
  refine ⟨Φ, news, ?_, h4, h5, h6, ?_, k5, ?_, ?_, ?_⟩
  · rw [processCycle_eq]
    show ((createPhase (updateMatchedPhase (tracker, []) objects
        (cycleMatch tracker objects thr).1 f ts) objects
        (cycleMatch tracker objects thr).2.1 f ts).1.mark_missed_tracks
        ((cycleMatch tracker objects thr).1.map
          (fun m => m.2))).evict_old_tracks.1.tracks = _
    rw [evict_old_tracks_tracks, mark_missed_tracks_tracks, k1, h1]
    have hage : ((createPhase (updateMatchedPhase (tracker, []) objects
        (cycleMatch tracker objects thr).1 f ts) objects
        (cycleMatch tracker objects thr).2.1 f ts).1.mark_missed_tracks
        ((cycleMatch tracker objects thr).1.map (fun m => m.2))).max_age =
        tracker.max_age := by
      show (createPhase (updateMatchedPhase (tracker, []) objects
        (cycleMatch tracker objects thr).1 f ts) objects
        (cycleMatch tracker objects thr).2.1 f ts).1.max_age = _
      rw [k3, h3]
    rw [hage]
  · rw [k4, h2]
  · rw [processCycle_eq]
    show ((createPhase (updateMatchedPhase (tracker, []) objects
        (cycleMatch tracker objects thr).1 f ts) objects
        (cycleMatch tracker objects thr).2.1 f ts).1.mark_missed_tracks
        ((cycleMatch tracker objects thr).1.map
          (fun m => m.2))).evict_old_tracks.1.next_track_id = _
    have : ((createPhase (updateMatchedPhase (tracker, []) objects
        (cycleMatch tracker objects thr).1 f ts) objects
        (cycleMatch tracker objects thr).2.1 f ts).1.mark_missed_tracks
        ((cycleMatch tracker objects thr).1.map
          (fun m => m.2))).evict_old_tracks.1.next_track_id =
        (createPhase (updateMatchedPhase (tracker, []) objects
          (cycleMatch tracker objects thr).1 f ts) objects
          (cycleMatch tracker objects thr).2.1 f ts).1.next_track_id := rfl
    rw [this, k2, h2]
  · rw [processCycle_eq]
    show (createPhase (updateMatchedPhase (tracker, []) objects
        (cycleMatch tracker objects thr).1 f ts) objects
        (cycleMatch tracker objects thr).2.1 f ts).2.map
        (fun o => o.track_id) = _
    rw [k6, hpub1, h2]
    simp
  · rw [processCycle_eq]
    intro o ho
    rcases k7 o ho with h | h
    · rcases hpubf1 o h with h' | h'
      · simp at h'
      · exact h'
    · exact h

/-- Matched ids are below the id counter, for a well-formed table. -/
lemma mids_lt_next (tracker : Tracker) (objects : List Detection) (thr : ℚ)
    (hwf : ∀ kt ∈ tracker.tracks, kt.1 < tracker.next_track_id) :
    ∀ i ∈ (cycleMatch tracker objects thr).1.map (fun m => m.2),
      i < tracker.next_track_id := by
  intro i hi
  rcases List.mem_map.mp (mids_mem_keys tracker objects thr i hi) with
    ⟨kt, hkt, heq⟩
  exact heq ▸ hwf kt hkt

/-- C3 (amended): every track created this cycle has a fresh
monotonically increasing id and `stable = false`, but — because
`mark_missed_tracks` runs after creation and its matched-id set does not
include the fresh ids — it ends the cycle with `consecutive_hits = 0` and
`frames_since_update = 1`; every track not among the matched ids (whether
pre-existing or created this cycle) has `frames_since_update` incremented
and `consecutive_hits` reset by `mark_missed`; matched tracks end with
`frames_since_update = 0`. -/
theorem processCycle_created_and_missed (tracker : Tracker)
    (objects : List Detection) (f : ℕ) (ts : ℤ) (thr : ℚ)
    (hid : ∀ kt ∈ tracker.tracks, kt.2.track_id = kt.1)
    (hwf : ∀ kt ∈ tracker.tracks, kt.1 < tracker.next_track_id)
    (hnd : (tracker.tracks.map (fun kt => kt.1)).Nodup)
    (hage : 1 ≤ tracker.max_age) :
    (∀ kt ∈ (processCycle tracker objects f ts thr).1.tracks,
      tracker.next_track_id ≤ kt.1 →
        kt.2.stable = false ∧ kt.2.consecutive_hits = 0 ∧
          kt.2.frames_since_update = 1) ∧
    (((processCycle tracker objects f ts thr).1.tracks.filter
        (fun kt => tracker.next_track_id ≤ kt.1)).map (fun kt => kt.1) =
      List.range' tracker.next_track_id
        (cycleMatch tracker objects thr).2.1.length) ∧
    ((processCycle tracker objects f ts thr).1.next_track_id =
      tracker.next_track_id + (cycleMatch tracker objects thr).2.1.length) ∧
    (∀ k t t', (k, t) ∈ tracker.tracks →
      k ∉ (cycleMatch tracker objects thr).1.map (fun m => m.2) →
      (k, t') ∈ (processCycle tracker objects f ts thr).1.tracks →
      t' = t.mark_missed) ∧
    (∀ k t', k ∈ (cycleMatch tracker objects thr).1.map (fun m => m.2) →
      (k, t') ∈ (processCycle tracker objects f ts thr).1.tracks →
      t'.frames_since_update = 0) := by
  obtain ⟨Φ, news, m1, m2, m3, m4, m5, m6, m7, m8, m9⟩ :=
    processCycle_master tracker objects f ts thr hid
  have hnewsge : ∀ kt ∈ news, tracker.next_track_id ≤ kt.1 := by
    intro kt hkt
    have : kt.1 ∈ news.map (fun kt => kt.1) := List.mem_map.mpr ⟨kt, hkt, rfl⟩
    rw [m5] at this
    exact (List.mem_range'_1.mp this).1
  have hnewsnm : ∀ kt ∈ news,
      kt.1 ∉ (cycleMatch tracker objects thr).1.map (fun m => m.2) := by
    intro kt hkt hmem
    exact absurd (mids_lt_next tracker objects thr hwf kt.1 hmem)
      (not_lt.mpr (hnewsge kt hkt))
  have hpsi_fst : ∀ kt0 : ℕ × Track,
      ((if kt0.1 ∉ (cycleMatch tracker objects thr).1.map (fun m => m.2)
        then (kt0.1, kt0.2.mark_missed) else kt0)).1 = kt0.1 := by
    intro kt0
    by_cases h : kt0.1 ∈ (cycleMatch tracker objects thr).1.map (fun m => m.2)
    · simp [h]
    · simp [h]
  refine ⟨?_, ?_, m7, ?_, ?_⟩
  · intro kt hkt hge
    rw [m1] at hkt
    rcases List.mem_filter.mp hkt with ⟨hmem, _⟩
    rcases List.mem_map.mp hmem with ⟨kt0, hkt0, heq⟩
    have hkey : kt.1 = kt0.1 := by rw [← heq, hpsi_fst]
    rcases List.mem_append.mp hkt0 with hold | hnew
    · rcases List.mem_map.mp hold with ⟨kt1, hkt1, heq1⟩
      have hk01 : kt0.1 = kt1.1 := by rw [← heq1]
      have hlt := hwf kt1 hkt1
      omega
    · have hv := m6 kt0 hnew
      have hnm := hnewsnm kt0 hnew
      rw [if_pos hnm] at heq
      rw [← heq]
      refine ⟨hv.2.1, rfl, ?_⟩
      show kt0.2.frames_since_update + 1 = 1
      rw [hv.2.2.2]
  · rw [m1, List.map_append, List.filter_append, List.filter_append,
      List.map_append]
    have hA : ((((tracker.tracks.map (fun kt => (kt.1, Φ kt.1 kt.2))).map
        (fun kt =>
          if kt.1 ∉ (cycleMatch tracker objects thr).1.map (fun m => m.2)
          then (kt.1, kt.2.mark_missed) else kt)).filter
        (fun kt => ¬ tracker.max_age < kt.2.frames_since_update)).filter
        (fun kt => tracker.next_track_id ≤ kt.1)) = [] := by
      rw [List.filter_eq_nil_iff]
      intro x hx
      have hx1 : x ∈ (tracker.tracks.map (fun kt => (kt.1, Φ kt.1 kt.2))).map
          (fun kt =>
            if kt.1 ∉ (cycleMatch tracker objects thr).1.map (fun m => m.2)
            then (kt.1, kt.2.mark_missed) else kt) :=
        (List.filter_sublist _).subset hx
      rcases List.mem_map.mp hx1 with ⟨kt0, hkt0, heq⟩
      rcases List.mem_map.mp hkt0 with ⟨kt1, hkt1, heq1⟩
      have hxk : x.1 = kt0.1 := by rw [← heq, hpsi_fst]
      have hk01 : kt0.1 = kt1.1 := by rw [← heq1]
      have hlt := hwf kt1 hkt1
      simp only [decide_eq_true_eq]
      omega
    have hB : ∀ x ∈ news.map (fun kt =>
        if kt.1 ∉ (cycleMatch tracker objects thr).1.map (fun m => m.2)
        then (kt.1, kt.2.mark_missed) else kt),
        x.2.frames_since_update = 1 ∧ tracker.next_track_id ≤ x.1 := by
      intro x hx
      rcases List.mem_map.mp hx with ⟨kt0, hkt0, heq⟩
      rw [if_pos (hnewsnm kt0 hkt0)] at heq
      constructor
      · rw [← heq]
        show kt0.2.frames_since_update + 1 = 1
        rw [(m6 kt0 hkt0).2.2.2]
      · have : x.1 = kt0.1 := by rw [← heq]
        rw [this]
        exact hnewsge kt0 hkt0
    have hBev : (news.map (fun kt =>
        if kt.1 ∉ (cycleMatch tracker objects thr).1.map (fun m => m.2)
        then (kt.1, kt.2.mark_missed) else kt)).filter
        (fun kt => ¬ tracker.max_age < kt.2.frames_since_update) =
        news.map (fun kt =>
          if kt.1 ∉ (cycleMatch tracker objects thr).1.map (fun m => m.2)
          then (kt.1, kt.2.mark_missed) else kt) := by
      rw [List.filter_eq_self]
      intro x hx
      simp only [decide_eq_true_eq]
      rw [(hB x hx).1]
      omega
    have hBge : (news.map (fun kt =>
        if kt.1 ∉ (cycleMatch tracker objects thr).1.map (fun m => m.2)
        then (kt.1, kt.2.mark_missed) else kt)).filter
        (fun kt => tracker.next_track_id ≤ kt.1) =
        news.map (fun kt =>
          if kt.1 ∉ (cycleMatch tracker objects thr).1.map (fun m => m.2)
          then (kt.1, kt.2.mark_missed) else kt) := by
      rw [List.filter_eq_self]
      intro x hx
      simp only [decide_eq_true_eq]
      exact (hB x hx).2
    rw [hA, hBev, hBge, List.map_map]
    have : ((fun kt : ℕ × Track => kt.1) ∘ (fun kt =>
        if kt.1 ∉ (cycleMatch tracker objects thr).1.map (fun m => m.2)
        then (kt.1, kt.2.mark_missed) else kt)) = fun kt => kt.1 := by
      funext kt0
      exact hpsi_fst kt0
    rw [this, m5]
    rfl
  · intro k t t' hkt hkm ht'
    rw [m1] at ht'
    rcases List.mem_filter.mp ht' with ⟨hmem, _⟩
    rcases List.mem_map.mp hmem with ⟨kt0, hkt0, heq⟩
    have hkey : k = kt0.1 := by rw [← hpsi_fst kt0, heq]
    have hklt : k < tracker.next_track_id := hwf (k, t) hkt
    rcases List.mem_append.mp hkt0 with hold | hnew
    · rcases List.mem_map.mp hold with ⟨kt1, hkt1, heq1⟩
      have hk01 : kt0.1 = kt1.1 := by rw [← heq1]
      have hk1 : kt1.1 = k := by omega
      have hval : kt0.2 = Φ kt1.1 kt1.2 := by rw [← heq1]
      have hnmem : kt0.1 ∉ (cycleMatch tracker objects thr).1.map
          (fun m => m.2) := by rw [hkey] at hkm; exact hkm
      rw [if_pos hnmem] at heq
      have ht'eq : t' = kt0.2.mark_missed := congrArg Prod.snd heq.symm
      have htv : kt1.2 = t := by
        have hmem1 : (k, kt1.2) ∈ tracker.tracks := by
          rw [show ((k, kt1.2) : ℕ × Track) = kt1 from by rw [← hk1]]
          exact hkt1
        exact assoc_value_eq hnd hmem1 hkt
      rw [ht'eq, hval, m2 kt1.1 kt1.2 (by rw [hk1]; exact hkm), htv]
    · have := hnewsge kt0 hnew
      omega
  · intro k t' hk ht'
    rw [m1] at ht'
    rcases List.mem_filter.mp ht' with ⟨hmem, _⟩
    rcases List.mem_map.mp hmem with ⟨kt0, hkt0, heq⟩
    have hkey : k = kt0.1 := by rw [← hpsi_fst kt0, heq]
    have hklt : k < tracker.next_track_id :=
      mids_lt_next tracker objects thr hwf k hk
    rcases List.mem_append.mp hkt0 with hold | hnew
    · rcases List.mem_map.mp hold with ⟨kt1, hkt1, heq1⟩
      have hval : kt0.2 = Φ kt1.1 kt1.2 := by rw [← heq1]
      have hk01 : kt0.1 = kt1.1 := by rw [← heq1]
      have hmemk : kt0.1 ∈ (cycleMatch tracker objects thr).1.map
          (fun m => m.2) := by rw [← hkey]; exact hk
      rw [if_neg (not_not.mpr hmemk)] at heq
      have ht'eq : t' = kt0.2 := congrArg Prod.snd heq.symm
      rw [ht'eq, hval]
      exact m3 kt1.1 kt1.2 (by rw [← hk01, ← hkey]; exact hk)
    · have := hnewsge kt0 hnew
      omega

/-- C3 counterexample: in a cycle that creates one track from an
unmatched detection (empty tracker, one detection), the created track
ends the cycle with `consecutive_hits = 0` and `frames_since_update = 1`
— not `consecutive_hits = 1` and `frames_since_update = 0` as claimed —
because `mark_missed_tracks` runs after creation and also marks the
just-created track. -/
theorem processCycle_created_counterexample :
    ((processCycle ⟨30, 1, []⟩ [⟨"person", ⟨0, 0, 1, 1⟩⟩] 0 0
      (3/10)).1.tracks.map (fun kt =>
        (kt.1, kt.2.consecutive_hits, kt.2.frames_since_update,
          kt.2.stable))) = [(1, 0, 1, false)] ∧
    ¬ ((processCycle ⟨30, 1, []⟩ [⟨"person", ⟨0, 0, 1, 1⟩⟩] 0 0
      (3/10)).1.tracks.map (fun kt =>
        (kt.1, kt.2.consecutive_hits, kt.2.frames_since_update,
          kt.2.stable))) = [(1, 1, 0, false)] := by
  constructor <;> decide

/-- Witness for the amended C3 at a concrete cycle. -/
theorem processCycle_created_and_missed_witness :
    (∀ kt ∈ (processCycle ⟨30, 1, []⟩ [⟨"person", ⟨0, 0, 1, 1⟩⟩] 0 0
        (3/10)).1.tracks, 1 ≤ kt.1 →
      kt.2.stable = false ∧ kt.2.consecutive_hits = 0 ∧
        kt.2.frames_since_update = 1) ∧
    (processCycle ⟨30, 1, []⟩ [⟨"person", ⟨0, 0, 1, 1⟩⟩] 0 0
      (3/10)).1.next_track_id =
      1 + (cycleMatch ⟨30, 1, []⟩ [⟨"person", ⟨0, 0, 1, 1⟩⟩]
        (3/10)).2.1.length :=
  have h := processCycle_created_and_missed ⟨30, 1, []⟩
    [⟨"person", ⟨0, 0, 1, 1⟩⟩] 0 0 (3/10) (by simp) (by simp) (by simp)
    (by norm_num)
  ⟨h.1, h.2.2.1⟩

/-- C9 (amended): the cycle publishes exactly one `TrackUpdate` per
matched track (in commit order) followed by exactly one per created
track (in creation order, fresh ids) — and none for missed tracks; no
track id repeats among the published updates, and every published update
carries the processed frame's id. -/
theorem processCycle_publishes (tracker : Tracker)
    (objects : List Detection) (f : ℕ) (ts : ℤ) (thr : ℚ)
    (hid : ∀ kt ∈ tracker.tracks, kt.2.track_id = kt.1)
    (hwf : ∀ kt ∈ tracker.tracks, kt.1 < tracker.next_track_id) :
    ((processCycle tracker objects f ts thr).2.1.map (fun o => o.track_id) =
      (cycleMatch tracker objects thr).1.map (fun m => m.2) ++
        List.range' tracker.next_track_id
          (cycleMatch tracker objects thr).2.1.length) ∧
    ((processCycle tracker objects f ts thr).2.1.map
      (fun o => o.track_id)).Nodup ∧
    (∀ o ∈ (processCycle tracker objects f ts thr).2.1,
      o.frame_id = f) := by
  obtain ⟨Φ, news, m1, m2, m3, m4, m5, m6, m7, m8, m9⟩ :=
    processCycle_master tracker objects f ts thr hid
  refine ⟨m8, ?_, m9⟩
  rw [m8]
  refine List.Nodup.append ?_ (List.nodup_range' _ _ 1 Nat.one_pos) ?_
  · exact matched_ids_nodup
  · intro a ha hb
    have h1 := mids_lt_next tracker objects thr hwf a ha
    have h2 := (List.mem_range'_1.mp hb).1
    omega

/-- C9 counterexample: a cycle with one live (missed) track and no
detections publishes no `TrackUpdate` at all, refuting "exactly one
TrackUpdate per live track including missed tracks". -/
theorem processCycle_publish_counterexample :
    (processCycle ⟨30, 2, [(1, ⟨1, "person", ⟨0, 0, 1, 1⟩, [], 1, 0, false⟩)]⟩
      [] 5 100 (3/10)).2.1 = [] ∧
    ((processCycle ⟨30, 2, [(1, ⟨1, "person", ⟨0, 0, 1, 1⟩, [], 1, 0,
      false⟩)]⟩ [] 5 100 (3/10)).1.tracks.map (fun kt => kt.1)) = [1] := by
  constructor <;> decide

/-- Witness for the amended C9 at a concrete cycle. -/
theorem processCycle_publishes_witness :
    (processCycle ⟨30, 1, []⟩ [⟨"person", ⟨0, 0, 1, 1⟩⟩] 0 0
      (3/10)).2.1.map (fun o => o.track_id) =
      (cycleMatch ⟨30, 1, []⟩ [⟨"person", ⟨0, 0, 1, 1⟩⟩] (3/10)).1.map
        (fun m => m.2) ++
        List.range' 1 (cycleMatch ⟨30, 1, []⟩ [⟨"person", ⟨0, 0, 1, 1⟩⟩]
          (3/10)).2.1.length ∧
    (∀ o ∈ (processCycle ⟨30, 1, []⟩ [⟨"person", ⟨0, 0, 1, 1⟩⟩] 0 0
      (3/10)).2.1, o.frame_id = 0) :=
  have h := processCycle_publishes ⟨30, 1, []⟩ [⟨"person", ⟨0, 0, 1, 1⟩⟩]
    0 0 (3/10) (by simp) (by simp)
  ⟨h.1, h.2.2⟩

end SmartGlasses
